import Mathlib

/-!
Shallow embedding of the gidgetlab core (src/gidgetlab/sansio.py,
src/gidgetlab/abc.py, src/gidgetlab/routing.py, src/gidgetlab/exceptions.py)
and proofs about the specification claims.

Conventions of the embedding:
* Python/JSON values are modelled by `Json`; `Json.null` doubles as Python
  `None` (note `json.loads("null")` is `None` in Python, so the two really
  coincide).
* Header mappings are association lists with lowercase keys (the code
  documents that the mappings it receives support lowercase keys).
* Python exceptions are modelled by `PyErr`; fallible code returns
  `Except PyErr α`.
* Real time enters only through `RateLimit.__bool__` (`datetime.now()`);
  it is made an explicit `now : Rat` parameter (seconds since the epoch,
  matching `reset_epoch`).
-/

namespace Gidgetlab

/-- JSON/Python values.  `null` doubles as Python `None`. -/
inductive Json where
  | null
  | bool (b : Bool)
  | num (n : Int)
  | str (s : String)
  | arr (elems : List Json)
  | obj (fields : List (String × Json))

mutual

/-- Structural equality of JSON values (Python `==` on decoded bodies). -/
def Json.beq : Json → Json → Bool
  | .null, .null => true
  | .bool a, .bool b => a == b
  | .num a, .num b => a == b
  | .str a, .str b => a == b
  | .arr a, .arr b => beqJList a b
  | .obj a, .obj b => beqJObj a b
  | _, _ => false

/-- Elementwise equality of JSON arrays. -/
def beqJList : List Json → List Json → Bool
  | [], [] => true
  | a :: as, b :: bs => Json.beq a b && beqJList as bs
  | _, _ => false

/-- Elementwise equality of JSON object field lists. -/
def beqJObj : List (String × Json) → List (String × Json) → Bool
  | [], [] => true
  | (k, v) :: as, (l, w) :: bs => k == l && Json.beq v w && beqJObj as bs
  | _, _ => false

end

mutual

theorem Json.eq_of_beq : {a b : Json} → Json.beq a b = true → a = b
  | .null, .null, _ => rfl
  | .bool _, .bool _, h => by
    simp only [Json.beq, beq_iff_eq] at h; exact congrArg Json.bool h
  | .num _, .num _, h => by
    simp only [Json.beq, beq_iff_eq] at h; exact congrArg Json.num h
  | .str _, .str _, h => by
    simp only [Json.beq, beq_iff_eq] at h; exact congrArg Json.str h
  | .arr _, .arr _, h => by
    simp only [Json.beq] at h; exact congrArg Json.arr (eqJList_of_beq h)
  | .obj _, .obj _, h => by
    simp only [Json.beq] at h; exact congrArg Json.obj (eqJObj_of_beq h)
  | .null, .bool _, h => by simp [Json.beq] at h
  | .null, .num _, h => by simp [Json.beq] at h
  | .null, .str _, h => by simp [Json.beq] at h
  | .null, .arr _, h => by simp [Json.beq] at h
  | .null, .obj _, h => by simp [Json.beq] at h
  | .bool _, .null, h => by simp [Json.beq] at h
  | .bool _, .num _, h => by simp [Json.beq] at h
  | .bool _, .str _, h => by simp [Json.beq] at h
  | .bool _, .arr _, h => by simp [Json.beq] at h
  | .bool _, .obj _, h => by simp [Json.beq] at h
  | .num _, .null, h => by simp [Json.beq] at h
  | .num _, .bool _, h => by simp [Json.beq] at h
  | .num _, .str _, h => by simp [Json.beq] at h
  | .num _, .arr _, h => by simp [Json.beq] at h
  | .num _, .obj _, h => by simp [Json.beq] at h
  | .str _, .null, h => by simp [Json.beq] at h
  | .str _, .bool _, h => by simp [Json.beq] at h
  | .str _, .num _, h => by simp [Json.beq] at h
  | .str _, .arr _, h => by simp [Json.beq] at h
  | .str _, .obj _, h => by simp [Json.beq] at h
  | .arr _, .null, h => by simp [Json.beq] at h
  | .arr _, .bool _, h => by simp [Json.beq] at h
  | .arr _, .num _, h => by simp [Json.beq] at h
  | .arr _, .str _, h => by simp [Json.beq] at h
  | .arr _, .obj _, h => by simp [Json.beq] at h
  | .obj _, .null, h => by simp [Json.beq] at h
  | .obj _, .bool _, h => by simp [Json.beq] at h
  | .obj _, .num _, h => by simp [Json.beq] at h
  | .obj _, .str _, h => by simp [Json.beq] at h
  | .obj _, .arr _, h => by simp [Json.beq] at h

theorem eqJList_of_beq : {as bs : List Json} → beqJList as bs = true → as = bs
  | [], [], _ => rfl
  | a :: as, b :: bs, h => by
    simp only [beqJList, Bool.and_eq_true] at h
    exact congrArg₂ List.cons (Json.eq_of_beq h.1) (eqJList_of_beq h.2)
  | [], _ :: _, h => by simp [beqJList] at h
  | _ :: _, [], h => by simp [beqJList] at h

theorem eqJObj_of_beq :
    {as bs : List (String × Json)} → beqJObj as bs = true → as = bs
  | [], [], _ => rfl
  | (k, v) :: as, (l, w) :: bs, h => by
    simp only [beqJObj, Bool.and_eq_true, beq_iff_eq] at h
    have h1 : (k, v) = (l, w) := by
      rw [h.1.1, Json.eq_of_beq h.1.2]
    exact congrArg₂ List.cons h1 (eqJObj_of_beq h.2)
  | [], _ :: _, h => by simp [beqJObj] at h
  | _ :: _, [], h => by simp [beqJObj] at h

end

mutual

theorem Json.beq_rfl : (a : Json) → Json.beq a a = true
  | .null => rfl
  | .bool _ => by simp [Json.beq]
  | .num _ => by simp [Json.beq]
  | .str _ => by simp [Json.beq]
  | .arr as => by simp only [Json.beq]; exact beqJList_rfl as
  | .obj as => by simp only [Json.beq]; exact beqJObj_rfl as

theorem beqJList_rfl : (as : List Json) → beqJList as as = true
  | [] => rfl
  | a :: as => by
    simp only [beqJList, Bool.and_eq_true]
    exact ⟨Json.beq_rfl a, beqJList_rfl as⟩

theorem beqJObj_rfl : (as : List (String × Json)) → beqJObj as as = true
  | [] => rfl
  | (k, v) :: as => by
    simp only [beqJObj, Bool.and_eq_true, beq_iff_eq]
    exact ⟨⟨trivial, Json.beq_rfl v⟩, beqJObj_rfl as⟩

end

instance : DecidableEq Json := fun a b =>
  if h : Json.beq a b = true then .isTrue (Json.eq_of_beq h)
  else .isFalse (fun he => h (he ▸ Json.beq_rfl a))

instance {ε α : Type} [DecidableEq ε] [DecidableEq α] : DecidableEq (Except ε α) :=
  fun a b =>
    match a, b with
    | .ok x, .ok y =>
      if h : x = y then .isTrue (by rw [h])
      else .isFalse (fun he => h (by cases he; rfl))
    | .error x, .error y =>
      if h : x = y then .isTrue (by rw [h])
      else .isFalse (fun he => h (by cases he; rfl))
    | .ok _, .error _ => .isFalse (fun he => by cases he)
    | .error _, .ok _ => .isFalse (fun he => by cases he)

/-- First-match association-list lookup (Python `dict.__getitem__` /
`dict.get`; the dicts modelled here have unique keys). -/
def alookup {α β : Type} [DecidableEq α] : List (α × β) → α → Option β
  | [], _ => none
  | (a, b) :: t, k => if a = k then some b else alookup t k

/-- Update the value at the first occurrence of a key, or append a fresh
entry built from a default.  This is Python `d.setdefault(k, dflt)`
followed by a mutation `f` of the resulting value. -/
def updAt {α β : Type} [DecidableEq α] : List (α × β) → α → β → (β → β) → List (α × β)
  | [], k, d, f => [(k, f d)]
  | (a, b) :: t, k, d, f => if a = k then (a, f b) :: t else (a, b) :: updAt t k d f

/-- Overwrite the value at a key, or append it (Python `d[k] = v`). -/
def setKV {α β : Type} [DecidableEq α] : List (α × β) → α → β → List (α × β)
  | [], k, v => [(k, v)]
  | (a, b) :: t, k, v => if a = k then (a, v) :: t else (a, b) :: setKV t k v

/-- Python truthiness of a JSON value. -/
def Json.truthy : Json → Bool
  | .null => false
  | .bool b => b
  | .num n => n != 0
  | .str s => !s.isEmpty
  | .arr l => !l.isEmpty
  | .obj l => !l.isEmpty

/-- Lookup of a string key in a JSON object (`data.get(key)`), `none`
when the value is not an object or the key is absent. -/
def Json.get? : Json → String → Option Json
  | .obj kvs, k => alookup kvs k
  | _, _ => none

/-- HTTP headers: association list with lowercase keys. -/
abbrev Headers := List (String × String)

/-- Header lookup (`headers.get(k)` / `headers[k]`). -/
def hget (h : Headers) (k : String) : Option String := alookup h k

/-- Rate limit snapshot (gidgetlab.sansio.RateLimit).  The
`reset_datetime` attribute is kept as the defining epoch value. -/
structure RateLimit where
  limit : Int
  remaining : Int
  resetEpoch : Rat
deriving DecidableEq

/-- RateLimit.__bool__ at instant `now`: requests remain or the reset
instant has passed. -/
def RateLimit.toBool (now : Rat) (r : RateLimit) : Bool :=
  if r.remaining > 0 then true else decide (now > r.resetEpoch)

/-- Kinds of gidgetlab.exceptions HTTP exception classes. -/
inductive HKind where
  | plain
  | redirection
  | badRequest
  | rateLimitExceeded
  | invalidField
  | gitLabBroken
deriving DecidableEq

/-- The class hierarchy: `BadRequest` and its subclasses. -/
def HKind.isBadRequest : HKind → Bool
  | .badRequest => true
  | .rateLimitExceeded => true
  | .invalidField => true
  | _ => false

/-- A raised gidgetlab HTTPException: its concrete class, the stored
status code, the message argument (`none` means no message argument was
passed, in which case Python falls back to the standard status phrase),
and the extra payloads of the specialised classes. -/
structure HTTPError where
  kind : HKind
  statusCode : Nat
  msg : Option Json
  rateLimit : Option RateLimit
  errors : Option Json
deriving DecidableEq

/-- Python exceptions that can escape the modelled code.  `valueError`
also stands for json/form parse failures (json.JSONDecodeError is a
ValueError subclass). -/
inductive PyErr where
  | keyError
  | typeError
  | attributeError
  | valueError
  | recursionError
  | validationFailure (m : String)
  | http (e : HTTPError)
deriving DecidableEq

/-- Digits of a decimal string. -/
def parseDigits : List Char → Option Nat
  | [] => none
  | cs =>
    if cs.all Char.isDigit then
      some (cs.foldl (fun n c => 10 * n + (c.toNat - 48)) 0)
    else none

/-- Python `int(s)` for the plain decimal forms used by this API
(optional minus sign, digits); other inputs raise ValueError. -/
def parsePyInt (s : String) : Option Int :=
  match s.data with
  | '-' :: t => (parseDigits t).map (fun n => -(n : Int))
  | t => (parseDigits t).map (fun n => (n : Int))

/-- Python `float(s)` for plain decimal forms (optional minus sign,
digits, optional fractional part); other inputs raise ValueError. -/
def parsePyFloat (s : String) : Option Rat :=
  let core (t : List Char) : Option Rat :=
    match t.splitOn '.' with
    | [w] => (parseDigits w).map (fun n => (n : Rat))
    | [w, f] => do
      let wn ← parseDigits w
      let fn ← parseDigits f
      pure ((wn : Rat) + (fn : Rat) / ((10 : Rat) ^ f.length))
    | _ => none
  match s.data with
  | '-' :: t => (core t).map (fun q => -q)
  | t => core t

/-- RateLimit.from_http: `none` when any rate-limit header is missing
(KeyError caught); an unparsable present header raises ValueError. -/
def RateLimit.from_http (headers : Headers) : Except PyErr (Option RateLimit) :=
  match hget headers "ratelimit-limit" with
  | none => .ok none
  | some ls =>
    match parsePyInt ls with
    | none => .error .valueError
    | some limit =>
      match hget headers "ratelimit-remaining" with
      | none => .ok none
      | some rs =>
        match parsePyInt rs with
        | none => .error .valueError
        | some remaining =>
          match hget headers "ratelimit-reset" with
          | none => .ok none
          | some es =>
            match parsePyFloat es with
            | none => .error .valueError
            | some reset => .ok (some ⟨limit, remaining, reset⟩)

/-- Abstraction of a raw HTTP byte body.  `empty` is the zero-byte body.
`content text jsonVal formPayload` is a non-empty body: `text` is the
string the bytes decode to (UTF-8, the charset exercised by this code),
`jsonVal` is what `json.loads(text)` produces (`none` when it would
raise), and `formPayload` is what
`json.loads(parse_qs(text)["payload"][0])` produces (`none` when that
expression would raise KeyError or ValueError). -/
inductive Body where
  | empty
  | content (text : String) (jsonVal : Option Json) (formPayload : Option Json)
deriving DecidableEq

/-- Drop surrounding whitespace (Python `str.strip`). -/
def stripChars (l : List Char) : List Char :=
  ((l.dropWhile Char.isWhitespace).reverse.dropWhile Char.isWhitespace).reverse

/-- The media-type part of `cgi.parse_header`: the segment before the
first semicolon, stripped of surrounding whitespace. -/
def parseHeaderMain (ct : String) : String :=
  String.mk (stripChars (ct.data.takeWhile (fun c => c ≠ ';')))

/-- Content-type falsiness (`if not content_type`): absent or empty. -/
def ctFalsy : Option String → Bool
  | none => true
  | some s => s.isEmpty

/-- gidgetlab.sansio._decode_body.  Empty bodies and falsy content types
decode to `None` before any content-type dispatch; `application/json`
bodies are JSON-parsed, form bodies have their `payload` field
JSON-parsed, anything else is the decoded text, or a ValueError under
`strict`. -/
def decode_body (contentType : Option String) (body : Body) (strict : Bool) :
    Except PyErr Json :=
  let type_ : Option String := contentType.map parseHeaderMain
  if body = .empty ∨ ctFalsy contentType then .ok .null
  else
    match body with
    | .empty => .ok .null
    | .content text jsonVal formPayload =>
      if type_ = some "application/json" then
        match jsonVal with
        | some j => .ok j
        | none => .error .valueError
      else if type_ = some "application/x-www-form-urlencoded" then
        match formPayload with
        | some j => .ok j
        | none => .error .keyError
      else if strict then .error .valueError
      else .ok (.str text)

/-- Representation of a GitLab webhook event (gidgetlab.sansio.Event). -/
structure Event where
  data : Json
  event : String
  secret : Option String
deriving DecidableEq

/-- Event.object_attributes: `self.data.get("object_attributes", {})`;
AttributeError when the payload is not an object. -/
def Event.object_attributes (e : Event) : Except PyErr Json :=
  match e.data with
  | .obj kvs => .ok ((alookup kvs "object_attributes").getD (.obj []))
  | _ => .error .attributeError

/-- The BadRequest(415) raised by Event.from_http for a missing or
unusable content type. -/
def badRequest415 : PyErr :=
  .http ⟨.badRequest, 415,
    some (.str ("expected a content-type of \x27application/json\x27 " ++
      "or \x27application/x-www-form-urlencoded\x27")), none, none⟩

/-- The body-decoding step of Event.from_http: KeyError (from the
content-type header lookup or the form-payload extraction) and
ValueError (from the strict content-type check or a JSON parse) become
the 415 BadRequest. -/
def fromHttpDecode (headers : Headers) (body : Body) : Except PyErr Json :=
  match hget headers "content-type" with
  | none => .error badRequest415
  | some ct =>
    match decode_body (some ct) body true with
    | .ok d => .ok d
    | .error .valueError => .error badRequest415
    | .error .keyError => .error badRequest415
    | .error e => .error e

/-- The construction step of Event.from_http: decode the body, then
read the `x-gitlab-event` header (whose absence raises an uncaught
KeyError). -/
def fromHttpBuild (headers : Headers) (body : Body) (secret : Option String) :
    Except PyErr Event :=
  match fromHttpDecode headers body with
  | .error e => .error e
  | .ok d =>
    match hget headers "x-gitlab-event" with
    | none => .error .keyError
    | some ev => .ok ⟨d, ev, secret⟩

/-- Event.from_http: secret-token validation followed by strict body
decoding and construction. -/
def Event.from_http (headers : Headers) (body : Body) (secret : Option String) :
    Except PyErr Event :=
  match hget headers "x-gitlab-token" with
  | some tok =>
    match secret with
    | none => .error (.validationFailure "secret not provided")
    | some s =>
      if tok ≠ s then .error (.validationFailure "invalid secret")
      else fromHttpBuild headers body secret
  | none =>
    match secret with
    | some _ => .error (.validationFailure "x-gitlab-token is missing")
    | none => fromHttpBuild headers body secret

/-- Word characters of the `\w` regex class, for the ASCII link headers
this API produces. -/
def isWordChar (c : Char) : Bool :=
  c.isAlphanum || c = '_'

/-- Whitespace characters of the `\s` regex class. -/
def isSpaceChar (c : Char) : Bool :=
  c = ' ' || c = '\t' || c = '\n' || c = '\r' || c = '\x0b' || c = '\x0c'

/-- One attempt of the `_link_re` pattern
`\<(?P<uri>[^>]+)\>;\s*(?P<param_type>\w+)="(?P<param_value>\w+)"(,\s*)?`
at the character position right after a leading `<`.  Returns the three
captured groups and the remaining input after the match; the pattern is
backtracking-free here because each repeated class is disjoint from the
literal that follows it. -/
def dropSep (l : List Char) : List Char :=
  match l with
  | c :: cs => if c = ',' then cs.dropWhile isSpaceChar else l
  | [] => l

def matchAfterLt (cs : List Char) : Option (String × String × String × List Char) :=
  if (cs.takeWhile (fun c => c ≠ '>')).isEmpty then none
  else
    match cs.drop (cs.takeWhile (fun c => c ≠ '>')).length with
    | '>' :: ';' :: cs2 =>
      if ((cs2.dropWhile isSpaceChar).takeWhile isWordChar).isEmpty then none
      else
        match (cs2.dropWhile isSpaceChar).drop
            ((cs2.dropWhile isSpaceChar).takeWhile isWordChar).length with
        | '=' :: '"' :: cs4 =>
          if (cs4.takeWhile isWordChar).isEmpty then none
          else
            match cs4.drop (cs4.takeWhile isWordChar).length with
            | '"' :: cs5 =>
              some (String.mk (cs.takeWhile (fun c => c ≠ '>')),
                String.mk ((cs2.dropWhile isSpaceChar).takeWhile isWordChar),
                String.mk (cs4.takeWhile isWordChar),
                dropSep cs5)
            | _ => none
        | _ => none
    | _ => none

theorem length_dropWhile_le {α : Type} (p : α → Bool) (l : List α) :
    (l.dropWhile p).length ≤ l.length := by
  induction l with
  | nil => simp [List.dropWhile]
  | cons a t ih =>
    by_cases h : p a
    · simp only [List.dropWhile, h]
      exact Nat.le_succ_of_le ih
    · simp [List.dropWhile, h]

theorem dropSep_length_le (l : List Char) : (dropSep l).length ≤ l.length := by
  cases l with
  | nil => simp [dropSep]
  | cons c cs =>
    by_cases hc : c = ','
    · simp only [dropSep, hc, if_pos rfl, List.length_cons]
      exact Nat.le_succ_of_le (length_dropWhile_le isSpaceChar cs)
    · simp [dropSep, hc]

theorem matchAfterLt_rest_le (cs : List Char) (u t v : String) (rest : List Char)
    (h : matchAfterLt cs = some (u, t, v, rest)) : rest.length ≤ cs.length := by
  unfold matchAfterLt at h
  split at h
  · exact absurd h (by simp)
  · split at h
    · rename_i cs2 heq
      have hcs2 : cs2.length + 2 ≤ cs.length := by
        have h1 := congrArg List.length heq
        simp only [List.length_drop, List.length_cons] at h1
        omega
      split at h
      · exact absurd h (by simp)
      · split at h
        · rename_i cs4 heq4
          have hcs4 : cs4.length ≤ cs2.length := by
            have h1 := congrArg List.length heq4
            simp only [List.length_drop, List.length_cons] at h1
            have h2 := length_dropWhile_le isSpaceChar cs2
            omega
          split at h
          · exact absurd h (by simp)
          · split at h
            · rename_i cs5 heq5
              have hcs5 : cs5.length + 1 ≤ cs4.length := by
                have h1 := congrArg List.length heq5
                simp only [List.length_drop, List.length_cons] at h1
                omega
              simp only [Option.some.injEq, Prod.mk.injEq] at h
              have hr : dropSep cs5 = rest := h.2.2.2
              have h6 := dropSep_length_le cs5
              rw [hr] at h6
              omega
            · exact absurd h (by simp)
        · exact absurd h (by simp)
    · exact absurd h (by simp)

/-- The finditer loop of `_next_link`: scan left to right, at each
position attempt the pattern (which must start with `<`); on a match
whose `param_type` is `rel` and `param_value` is `next`, return the
captured URI, otherwise continue after the match.  The structural fuel
bounds the number of scan steps; every step consumes at least one
character, so a fuel of the input length is always enough. -/
def findNextLoop : Nat → List Char → Option String
  | 0, _ => none
  | _ + 1, [] => none
  | fuel + 1, c :: cs =>
    if c = '<' then
      match matchAfterLt cs with
      | some (uri, ptype, pval, rest) =>
        if ptype = "rel" && pval = "next" then some uri
        else findNextLoop fuel rest
      | none => findNextLoop fuel cs
    else findNextLoop fuel cs

/-- gidgetlab.sansio._next_link. -/
def next_link : Option String → Option String
  | none => none
  | some s => findNextLoop s.data.length s.data

/-- Members of Python's `http.HTTPStatus` enumeration (the 3.6 baseline
common to all interpreter versions this library supports); calling
`http.HTTPStatus(code)` with any other code raises ValueError. -/
def stdStatuses : List Nat :=
  [100, 101, 102,
   200, 201, 202, 203, 204, 205, 206, 207, 208, 226,
   300, 301, 302, 303, 304, 305, 307, 308,
   400, 401, 402, 403, 404, 405, 406, 407, 408, 409, 410, 411, 412, 413,
   414, 415, 416, 417, 421, 422, 423, 424, 426, 428, 429, 431, 451,
   500, 501, 502, 503, 504, 505, 506, 507, 508, 510, 511]

def isStdStatus (s : Nat) : Bool := decide (s ∈ stdStatuses)

mutual

/-- Python `repr` of a JSON value, for the ASCII payloads without
quote or backslash characters that this API handles. -/
def pyRepr : Json → String
  | .null => "None"
  | .bool b => if b then "True" else "False"
  | .num n => toString n
  | .str s => "\x27" ++ s ++ "\x27"
  | .arr l => "[" ++ pyReprList l ++ "]"
  | .obj kvs => "\x7b" ++ pyReprObj kvs ++ "\x7d"

/-- Comma-separated reprs of list elements. -/
def pyReprList : List Json → String
  | [] => ""
  | [a] => pyRepr a
  | a :: t => pyRepr a ++ ", " ++ pyReprList t

/-- Comma-separated reprs of dict items. -/
def pyReprObj : List (String × Json) → String
  | [] => ""
  | [(k, v)] => "\x27" ++ k ++ "\x27: " ++ pyRepr v
  | (k, v) :: t => "\x27" ++ k ++ "\x27: " ++ pyRepr v ++ ", " ++ pyReprObj t

end

/-- Python `str` of a JSON value (as used by an f-string). -/
def pyStr : Json → String
  | .str s => s
  | j => pyRepr j

/-- Python iteration over a value: lists yield elements, strings yield
characters, dicts yield keys; anything else raises TypeError. -/
def pyIter : Json → Except PyErr (List Json)
  | .arr l => .ok l
  | .str s => .ok (s.data.map (fun c => .str (String.mk [c])))
  | .obj kvs => .ok (kvs.map (fun kv => .str kv.1))
  | _ => .error .typeError

/-- Subscripting an errors entry with `"field"`: KeyError when the key
is absent from an object, TypeError for non-dict entries. -/
def fieldOfEntry : Json → Except PyErr Json
  | .obj kvs =>
    match alookup kvs "field" with
    | some v => .ok v
    | none => .error .keyError
  | _ => .error .typeError

/-- The `", ".join(repr(e["field"]) for e in errors)` expression. -/
def fieldsJoin : List Json → Except PyErr String
  | [] => .ok ""
  | [e] =>
    match fieldOfEntry e with
    | .error er => .error er
    | .ok f => .ok (pyRepr f)
  | e :: t =>
    match fieldOfEntry e with
    | .error er => .error er
    | .ok f =>
      match fieldsJoin t with
      | .error er => .error er
      | .ok r => .ok (pyRepr f ++ ", " ++ r)

/-- The message argument actually passed to the exception constructor:
present only when the extracted message is truthy (`if message:`). -/
def truthyArg : Option Json → Option Json
  | some j => if j.truthy then some j else none
  | none => none

/-- Shared tail of `decipher_response`'s error paths:
`http.HTTPStatus(status_code)` (ValueError for a non-member code), then
the exception of the classified type with the status and, when truthy,
the body message. -/
def httpTail (kind : HKind) (statusCode : Nat) (message : Option Json) :
    Except PyErr (Json × Option RateLimit × Option String) :=
  if isStdStatus statusCode then
    .error (.http ⟨kind, statusCode, truthyArg message, none, none⟩)
  else .error .valueError

/-- The non-success branch of gidgetlab.sansio.decipher_response: the
status-range classification, with the 403 rate-limit and 422
invalid-field special cases.  `now` is the instant at which
`RateLimit.__bool__` would read the clock in the 403 branch. -/
def errorBranch (now : Rat) (statusCode : Nat) (headers : Headers) (data : Json) :
    Except PyErr (Json × Option RateLimit × Option String) :=
  let message : Option Json := Json.get? data "message"
  if 500 ≤ statusCode then
    httpTail .gitLabBroken statusCode message
  else if 400 ≤ statusCode then
    if statusCode = 403 then
      match RateLimit.from_http headers with
      | .error e => .error e
      | .ok (some r) =>
        if r.toBool now && decide (r.remaining = 0) then
          .error (.http ⟨.rateLimitExceeded, 403, some (message.getD .null),
            some r, none⟩)
        else httpTail .badRequest statusCode message
      | .ok none => httpTail .badRequest statusCode message
    else if statusCode = 422 then
      match data with
      | .obj kvs =>
        let errors := alookup kvs "errors"
        if (match errors with | some j => j.truthy | none => false) then
          match pyIter (errors.getD .null) with
          | .error e => .error e
          | .ok es =>
            match fieldsJoin es with
            | .error e => .error e
            | .ok fields =>
              .error (.http ⟨.invalidField, 422,
                some (.str (pyStr (message.getD .null) ++ " for " ++ fields)),
                none, errors⟩)
        else
          match alookup kvs "message" with
          | none => .error .keyError
          | some m => .error (.http ⟨.invalidField, 422, some m, none, errors⟩)
      | _ => .error .attributeError
    else httpTail .badRequest statusCode message
  else if 300 ≤ statusCode then
    httpTail .redirection statusCode message
  else
    httpTail .plain statusCode message

/-- gidgetlab.sansio.decipher_response, continued from `errorBranch`:
decode the body, return the success triple for 200/201/202/204, and
classify everything else. -/
def decipher_response (now : Rat) (statusCode : Nat) (headers : Headers)
    (body : Body) : Except PyErr (Json × Option RateLimit × Option String) :=
  match decode_body (hget headers "content-type") body false with
  | .error e => .error e
  | .ok data =>
    if statusCode = 200 ∨ statusCode = 201 ∨ statusCode = 202 ∨ statusCode = 204 then
      match RateLimit.from_http headers with
      | .error e => .error e
      | .ok rl => .ok (data, rl, next_link (hget headers "link"))
    else errorBranch now statusCode headers data

/-- Strip all leading slashes (`url.lstrip("/")`). -/
def lstripSlash (s : String) : String :=
  String.mk (s.data.dropWhile (fun c => c = '/'))

/-- List prefix test. -/
def isPrefixList : List Char → List Char → Bool
  | [], _ => true
  | _ :: _, [] => false
  | a :: as, b :: bs => a == b && isPrefixList as bs

/-- Split a character list on a separator character. -/
def splitOnChar (c : Char) : List Char → List (List Char)
  | [] => [[]]
  | a :: t =>
    if a = c then [] :: splitOnChar c t
    else
      match splitOnChar c t with
      | h :: r => (a :: h) :: r
      | [] => [[a]]

/-- A scheme character (`urllib.parse.scheme_chars`): ASCII letters,
digits, `+`, `-` and `.`. -/
def schemeChar (c : Char) : Bool :=
  c.isAlpha || c.isDigit || c = '+' || c = '-' || c = '.'

/-- The scheme-splitting step of `urllib.parse.urlsplit` (Python 3.6):
the text before the first `:`, when non-empty, all scheme characters
and not followed by a bare port number, is the scheme (lower-cased);
`http` is special-cased without the port-number test. -/
def pySchemeSplit (url : List Char) : Option (List Char × List Char) :=
  let pre := url.takeWhile (fun x => x ≠ ':')
  match url.drop pre.length with
  | ':' :: rest =>
    if pre.isEmpty then none
    else if pre = "http".data then some (pre, rest)
    else if pre.all schemeChar then
      if rest.isEmpty || rest.any (fun c => !c.isDigit) then
        some (pre.map Char.toLower, rest)
      else none
    else none
  | _ => none

/-- `urllib.parse._splitnetloc`: the authority extends to the first
`/`, `?` or `#`. -/
def pySplitNetloc (l : List Char) : List Char × List Char :=
  let nl := l.takeWhile (fun c => c ≠ '/' && c ≠ '?' && c ≠ '#')
  (nl, l.drop nl.length)

/-- Split at the first occurrence of a character: the part before, and
the part after when the character occurs at all. -/
def splitAtFirst (c : Char) (l : List Char) : List Char × Option (List Char) :=
  match l.drop (l.takeWhile (fun x => x ≠ c)).length with
  | _ :: rest => (l.takeWhile (fun x => x ≠ c), some rest)
  | [] => (l.takeWhile (fun x => x ≠ c), none)

/-- The part after the first occurrence of a character (empty when the
character does not occur). -/
def afterFirst (c : Char) (l : List Char) : List Char :=
  match splitAtFirst c l with
  | (_, some r) => r
  | (_, none) => []

/-- `urllib.parse._splitparams`: split the path at the first `;` of its
last `/`-segment (of the whole path when it has no `/`); no split when
that segment has no `;`. -/
def pySplitParams (p : List Char) : List Char × List Char :=
  if p.contains '/' then
    let lastSeg := (p.reverse.takeWhile (fun c => c ≠ '/')).reverse
    if lastSeg.contains ';' then
      let a := lastSeg.takeWhile (fun c => c ≠ ';')
      (p.take (p.length - lastSeg.length) ++ a, lastSeg.drop (a.length + 1))
    else (p, [])
  else if p.contains ';' then
    let a := p.takeWhile (fun c => c ≠ ';')
    (a, p.drop (a.length + 1))
  else (p, [])

/-- The components `urllib.parse.urlparse` returns: scheme, authority,
path, parameters, query and fragment. -/
structure UrlParts where
  scheme : String
  netloc : String
  path : String
  params : String
  query : String
  fragment : String
deriving DecidableEq

/-- `urllib.parse.uses_relative` (Python 3.6). -/
def uses_relative : List String :=
  ["", "ftp", "http", "gopher", "nntp", "imap", "wais", "file", "https",
   "shttp", "mms", "prospero", "rtsp", "rtspu", "sftp", "svn", "svn+ssh",
   "ws", "wss"]

/-- `urllib.parse.uses_netloc` (Python 3.6). -/
def uses_netloc : List String :=
  ["", "ftp", "http", "gopher", "nntp", "telnet", "imap", "wais", "file",
   "mms", "https", "shttp", "snews", "prospero", "rtsp", "rtspu", "rsync",
   "svn", "svn+ssh", "sftp", "nfs", "git", "git+ssh", "ws", "wss"]

/-- `urllib.parse.uses_params` (Python 3.6). -/
def uses_params : List String :=
  ["", "ftp", "hdl", "prospero", "http", "imap", "https", "shttp", "rtsp",
   "rtspu", "sip", "sips", "mms", "sftp", "tel"]

/-- urllib.parse.urlparse (Python 3.6, `allow_fragments=True`): the
scheme (or the given default), the authority after `//`, the fragment
after the first `#`, the query after the following first `?`, and the
`;`-parameters of the last path segment for the schemes that use them.
The IPv6 bracket `ValueError` is not modelled. -/
def pyUrlparse (defaultScheme url : String) : UrlParts :=
  let (sch, rest1) :=
    match pySchemeSplit url.data with
    | some (s, r) => (s, r)
    | none => (defaultScheme.data, url.data)
  let (netloc, rest2) :=
    if isPrefixList "//".data rest1 then pySplitNetloc (rest1.drop 2)
    else (([] : List Char), rest1)
  let (rest3, fragment) :=
    match splitAtFirst '#' rest2 with
    | (p, some f) => (p, f)
    | (p, none) => (p, ([] : List Char))
  let (path0, query) :=
    match splitAtFirst '?' rest3 with
    | (p, some q) => (p, q)
    | (p, none) => (p, ([] : List Char))
  let (path, params) :=
    if uses_params.contains (String.mk sch) && path0.contains ';' then
      pySplitParams path0
    else (path0, ([] : List Char))
  ⟨String.mk sch, String.mk netloc, String.mk path, String.mk params,
    String.mk query, String.mk fragment⟩

/-- urllib.parse.urlunsplit. -/
def pyUrlunsplit (scheme netloc path query fragment : String) : String :=
  let u1 :=
    if !netloc.data.isEmpty || isPrefixList "//".data path.data then
      "//" ++ netloc ++
        (if !path.data.isEmpty && path.data.head? != some '/' then "/" ++ path
         else path)
    else path
  let u2 := if !scheme.data.isEmpty then scheme ++ ":" ++ u1 else u1
  let u3 := if !query.data.isEmpty then u2 ++ "?" ++ query else u2
  if !fragment.data.isEmpty then u3 ++ "#" ++ fragment else u3

/-- urllib.parse.urlunparse. -/
def pyUrlunparse (scheme netloc path params query fragment : String) : String :=
  pyUrlunsplit scheme netloc
    (if params.data.isEmpty then path else path ++ ";" ++ params) query fragment

/-- `if base_parts[-1] != '': del base_parts[-1]`. -/
def delLastIfNonEmpty (ps : List (List Char)) : List (List Char) :=
  match ps.getLast? with
  | some l => if l.isEmpty then ps else ps.dropLast
  | none => ps

/-- Drop empty elements, keeping the last element whatever it is. -/
def filterInner : List (List Char) → List (List Char)
  | [] => []
  | [a] => [a]
  | a :: t => if a.isEmpty then filterInner t else a :: filterInner t

/-- `segments[1:-1] = filter(None, segments[1:-1])`: keep the first and
last elements and drop empty elements in between. -/
def filterMiddle : List (List Char) → List (List Char)
  | [] => []
  | a :: t => a :: filterInner t

/-- The segment loop of `urljoin`: `..` pops the last resolved segment
(no-op when there is none), `.` is dropped, anything else appended. -/
def resolveSegs (segs : List (List Char)) : List (List Char) :=
  segs.foldl
    (fun acc seg =>
      if seg = ['.', '.'] then acc.dropLast
      else if seg = ['.'] then acc
      else acc ++ [seg]) []

/-- `'/'.join`. -/
def joinSlash : List (List Char) → List Char
  | [] => []
  | [a] => a
  | a :: t => a ++ '/' :: joinSlash t

/-- urllib.parse.urljoin (Python 3.6, `allow_fragments=True`): empty
base or reference pass the other through; a reference whose scheme
differs from the base (or allows no relative resolution) is returned
unchanged; a reference with an authority keeps everything but the
scheme; otherwise the base authority is used and the reference path is
resolved against the base path segment by segment with `..`/`.`
handling. -/
def pyUrljoin (base url : String) : String :=
  if base.data.isEmpty then url
  else if url.data.isEmpty then base
  else
    let b := pyUrlparse "" base
    let r := pyUrlparse b.scheme url
    if r.scheme != b.scheme || !(uses_relative.contains r.scheme) then url
    else if uses_netloc.contains r.scheme && !r.netloc.data.isEmpty then
      pyUrlunparse r.scheme r.netloc r.path r.params r.query r.fragment
    else
      let netloc := if uses_netloc.contains r.scheme then b.netloc else r.netloc
      if r.path.data.isEmpty && r.params.data.isEmpty then
        pyUrlunparse r.scheme netloc b.path b.params
          (if r.query.data.isEmpty then b.query else r.query) r.fragment
      else
        let baseParts := delLastIfNonEmpty (splitOnChar '/' b.path.data)
        let segments :=
          if r.path.data.head? = some '/' then splitOnChar '/' r.path.data
          else filterMiddle (baseParts ++ splitOnChar '/' r.path.data)
        let resolved :=
          if segments.getLast? = some ['.'] ∨ segments.getLast? = some ['.', '.']
          then resolveSegs segments ++ [[]]
          else resolveSegs segments
        let joined := joinSlash resolved
        pyUrlunparse r.scheme netloc
          (if joined.isEmpty then "/" else String.mk joined)
          r.params r.query r.fragment

/-- The `api_url` computed by `GitLabAPI.__init__`:
`urljoin(url, f"/api/{api_version}/")`. -/
def apiUrlOf (base version : String) : String :=
  pyUrljoin base ("/api/" ++ version ++ "/")

/-- Split a query piece at its first `=`. -/
def splitFirstEq (l : List Char) : Option (List Char × List Char) :=
  let k := l.takeWhile (fun c => c ≠ '=')
  match l.drop k.length with
  | '=' :: v => some (k, v)
  | _ => none

/-- urllib.parse.parse_qs: group the `k=v` pieces of a query string by
key (first-occurrence key order, values in order), dropping pieces with
a blank value or no `=` (modelled for queries without percent-encoding,
as produced for the plain ASCII parameters this API uses). -/
def parseQs (q : List Char) : List (String × List String) :=
  (splitOnChar '&' q).foldl
    (fun acc piece =>
      match splitFirstEq piece with
      | some (k, v) =>
        if v.isEmpty then acc
        else updAt acc (String.mk k) [] (fun vs => vs ++ [String.mk v])
      | none => acc)
    []

/-- A query dict value after `query.update(params)`: the original
parsed lists of strings, or a plain string from `params`. -/
inductive QVal where
  | one (s : String)
  | many (l : List String)
deriving DecidableEq

/-- urllib.parse.urlencode with `doseq=True`: one `k=v` pair per string
value, one per element for list values (modelled for values that need
no quoting). -/
def urlencodePairs : List (String × QVal) → List String
  | [] => []
  | (k, .one s) :: t => (k ++ "=" ++ s) :: urlencodePairs t
  | (k, .many l) :: t => l.map (fun v => k ++ "=" ++ v) ++ urlencodePairs t

/-- Join with `&`. -/
def joinAmp : List String → String
  | [] => ""
  | [a] => a
  | a :: t => a ++ "&" ++ joinAmp t

/-- The query-merging branch of `format_url`: parse the URL's query,
update it with `params`, re-encode, and reassemble the URL. -/
def mergeQuery (url : String) (params : List (String × String)) : String :=
  let pathPart := url.data.takeWhile (fun c => c ≠ '?')
  let queryPart :=
    match url.data.drop pathPart.length with
    | '?' :: q => q
    | _ => []
  let q0 : List (String × QVal) := (parseQs queryPart).map (fun kv => (kv.1, .many kv.2))
  let q1 := params.foldl (fun acc kv => setKV acc kv.1 (.one kv.2)) q0
  String.mk pathPart ++ "?" ++ joinAmp (urlencodePairs q1)

/-- gidgetlab.abc.GitLabAPI.format_url:
`urljoin(api_url, url.lstrip("/"))`, then the query-string merge when
`params` is non-empty. -/
def format_url (apiUrl url : String) (params : List (String × String)) : String :=
  let u := pyUrljoin apiUrl (lstripSlash url)
  if params.isEmpty then u else mergeQuery u params

/-- gidgetlab.sansio.create_headers. -/
def create_headers (requester : String) (accessToken : Option String) : Headers :=
  [("user-agent", requester), ("accept", "application/json")] ++
    (match accessToken with
     | some t => [("private-token", t)]
     | none => [])

mutual

/-- json.dumps with its default separators, for the ASCII payloads
without escape-needing characters that this model exercises (used only
for the `content-length` header value). -/
def pyJsonDumps : Json → String
  | .null => "null"
  | .bool b => if b then "true" else "false"
  | .num n => toString n
  | .str s => "\"" ++ s ++ "\""
  | .arr l => "[" ++ pyJsonDumpsList l ++ "]"
  | .obj kvs => "\x7b" ++ pyJsonDumpsObj kvs ++ "\x7d"

/-- Comma-separated dumps of array elements. -/
def pyJsonDumpsList : List Json → String
  | [] => ""
  | [a] => pyJsonDumps a
  | a :: t => pyJsonDumps a ++ ", " ++ pyJsonDumpsList t

/-- Comma-separated dumps of object items. -/
def pyJsonDumpsObj : List (String × Json) → String
  | [] => ""
  | [(k, v)] => "\"" ++ k ++ "\": " ++ pyJsonDumps v
  | (k, v) :: t => "\"" ++ k ++ "\": " ++ pyJsonDumps v ++ ", " ++ pyJsonDumpsObj t

end

/-- One cache entry: etag, last-modified, data, and next page
(gidgetlab.abc.CACHE_TYPE). -/
structure CacheEntry where
  etag : Option String
  lastModified : Option String
  payload : Json
  nextPage : Option String
deriving DecidableEq

/-- The pluggable cache: URL-keyed mapping to cache entries. -/
abbrev Cache := List (String × CacheEntry)

/-- The per-client configuration fixed at `GitLabAPI.__init__`. -/
structure Config where
  requester : String
  accessToken : Option String
  apiUrl : String
deriving DecidableEq

/-- The mutable state of a `GitLabAPI` instance: the configured cache
(if any) and the last rate-limit snapshot. -/
structure ApiState where
  cache : Option Cache
  rateLimit : Option RateLimit
deriving DecidableEq

/-- The `data` argument of `_make_request`: the `b""` no-body sentinel
or a JSON-serialisable payload. -/
inductive ReqData where
  | sentinel
  | json (j : Json)
deriving DecidableEq

/-- What the first half of `_make_request` computes before delegating
to the transport: the resolved URL, the request headers, the body sent
(`none` is `b""`), the `cacheable`/`cached` flags and the values read
from the cache. -/
structure Prepared where
  url : String
  headers : Headers
  body : Option Json
  cacheable : Bool
  cached : Bool
  cachedPayload : Json
  cachedMore : Option String
deriving DecidableEq

/-- The request-building half of `_make_request` (everything before
`await self._request(...)`). -/
def prepare (cfg : Config) (st : ApiState) (method url : String)
    (params : List (String × String)) (data : ReqData) : Prepared :=
  let filled := format_url cfg.apiUrl url params
  let h0 := create_headers cfg.requester cfg.accessToken
  match data with
  | .sentinel =>
    let h1 := h0 ++ [("content-length", "0")]
    if method = "GET" then
      match st.cache with
      | some c =>
        match alookup c filled with
        | some e =>
          ⟨filled,
            h1 ++ (match e.etag with
                   | some t => [("if-none-match", t)]
                   | none => [])
               ++ (match e.lastModified with
                   | some lm => [("if-modified-since", lm)]
                   | none => []),
            none, true, true, e.payload, e.nextPage⟩
        | none => ⟨filled, h1, none, true, false, .null, none⟩
      | none => ⟨filled, h1, none, false, false, .null, none⟩
    else ⟨filled, h1, none, false, false, .null, none⟩
  | .json j =>
    ⟨filled,
      h0 ++ [("content-type", "application/json; charset=utf-8"),
             ("content-length", toString (pyJsonDumps j).length)],
      some j, false, false, .null, none⟩

/-- The transport collaborator (`GitLabAPI._request`): method, URL,
headers and body in; status, headers and body out. -/
abbrev Transport := String → String → Headers → Option Json → Nat × Headers × Body

/-- gidgetlab.abc.GitLabAPI._make_request.  Returns the result (or the
raised exception) together with the client state after the call; the
optimistic rate-limit decrement happens before the exchange, the
rate-limit overwrite and the cache upsert only on a deciphered
response. -/
def make_request (now : Rat) (net : Transport) (cfg : Config) (st : ApiState)
    (method url : String) (params : List (String × String)) (data : ReqData) :
    Except PyErr (Json × Option String) × ApiState :=
  let p := prepare cfg st method url params data
  let st1 : ApiState :=
    ⟨st.cache, st.rateLimit.map (fun rl => { rl with remaining := rl.remaining - 1 })⟩
  let resp := net method p.url p.headers p.body
  if resp.1 = 304 ∧ p.cached then
    (.ok (p.cachedPayload, p.cachedMore), st1)
  else
    match decipher_response now resp.1 resp.2.1 resp.2.2 with
    | .error e => (.error e, st1)
    | .ok (d, rl, more) =>
      let hasDetails :=
        (hget resp.2.1 "etag").isSome || (hget resp.2.1 "last-modified").isSome
      match st1.cache with
      | some c =>
        if p.cacheable && hasDetails then
          (.ok (d, more),
            ⟨some (setKV c p.url
              ⟨hget resp.2.1 "etag", hget resp.2.1 "last-modified", d, more⟩), rl⟩)
        else (.ok (d, more), ⟨st1.cache, rl⟩)
      | none => (.ok (d, more), ⟨st1.cache, rl⟩)

/-- gidgetlab.abc.GitLabAPI.getiter: make a GET request, yield every
item of the returned sequence, then follow the next-page link (if any)
with the same params.  The structural fuel bounds the recursion depth;
`recursionError` models Python's unbounded recursion and is never
reached when the fuel exceeds the page-chain length. -/
def getiter (now : Rat) (net : Transport) (cfg : Config) :
    Nat → ApiState → String → List (String × String) →
    Except PyErr (List Json × ApiState)
  | 0, _, _, _ => .error .recursionError
  | fuel + 1, st, url, params =>
    match make_request now net cfg st "GET" url params .sentinel with
    | (.error e, _) => .error e
    | (.ok (d, more), st') =>
      match pyIter d with
      | .error e => .error e
      | .ok items =>
        match more with
        | some nxt =>
          if nxt.isEmpty then .ok (items, st')
          else
            match getiter now net cfg fuel st' nxt params with
            | .error e => .error e
            | .ok (rest, st'') => .ok (items ++ rest, st'')
        | none => .ok (items, st')

/-- The innermost deep-route map: attribute value → callbacks. -/
abbrev ValMap := List (Json × List Nat)

/-- The middle deep-route map: attribute key → value map. -/
abbrev KeyMap := List (String × ValMap)

/-- The outer deep-route map: event type → key map. -/
abbrev DeepMap := List (String × KeyMap)

instance : DecidableEq ValMap := inferInstance

instance : DecidableEq KeyMap := inferInstance

instance : DecidableEq DeepMap := inferInstance

/-- Router dispatch tables (gidgetlab.routing.Router): the shallow map
`event type → callbacks` and the deep map
`event type → attribute key → attribute value → callbacks`.  Python
dicts are insertion ordered, hence association lists.  Callbacks are
identified by numbers. -/
structure Router where
  shallow : List (String × List Nat)
  deep : DeepMap
deriving DecidableEq

/-- A freshly constructed router. -/
def Router.empty : Router := ⟨[], []⟩

/-- gidgetlab.routing.Router.add.  The keyword arguments arrive as an
ordered key/value list (Python keyword arguments have distinct keys).
Returns the router state after the call together with the raised
exception, if any: more than one attribute pair raises TypeError before
any table is touched, so the state comes back unchanged; otherwise the
callback is appended to the shallow bucket of the event type, or (via
`popitem`, which pops the last and only pair) to the deep bucket of the
event type, key and value. -/
def Router.add (r : Router) (cb : Nat) (eventType : String)
    (attrs : List (String × Json)) : Router × Option PyErr :=
  if attrs.length > 1 then (r, some .typeError)
  else
    match attrs.getLast? with
    | none =>
      ({ r with shallow := updAt r.shallow eventType [] (fun cbs => cbs ++ [cb]) },
        none)
    | some (k, v) =>
      let newDeep := updAt r.deep eventType []
        (fun m => updAt m k [] (fun vm => updAt vm v [] (fun cbs => cbs ++ [cb])))
      ({ r with deep := newDeep }, none)

/-- Python `key in value` for the attribute-presence test
(`data_key in event.object_attributes`): key membership for dicts,
element membership for lists, substring test for strings, TypeError
otherwise. -/
def pyContains (j : Json) (k : String) : Except PyErr Bool :=
  match j with
  | .obj kvs => .ok (alookup kvs k).isSome
  | .arr l => .ok (l.contains (.str k))
  | .str s => .ok (k.isEmpty || (s.splitOn k).length ≥ 2)
  | _ => .error .typeError

/-- Python `value[key]` with a string key: dict lookup (KeyError when
absent), TypeError for any other value. -/
def pyGetItemStr (j : Json) (k : String) : Except PyErr Json :=
  match j with
  | .obj kvs =>
    match alookup kvs k with
    | some v => .ok v
    | none => .error .keyError
  | _ => .error .typeError

/-- One iteration of the deep-route loop of `Router.dispatch`: if the
key is present in the event's object attributes and the event's
attribute value has registrations, those callbacks. -/
def collectOne (e : Event) (k : String) (vm : ValMap) :
    Except PyErr (List Nat) :=
  match e.object_attributes with
  | .error er => .error er
  | .ok oa =>
    match pyContains oa k with
    | .error er => .error er
    | .ok mem =>
      if mem then
        match pyGetItemStr oa k with
        | .error er => .error er
        | .ok v => .ok ((alookup vm v).getD [])
      else .ok []

/-- The deep-route loop of `Router.dispatch`, one key map entry after
the other. -/
def collectDeep (e : Event) : KeyMap → Except PyErr (List Nat)
  | [] => .ok []
  | (k, vm) :: rest =>
    match collectOne e k vm with
    | .error er => .error er
    | .ok here =>
      match collectDeep e rest with
      | .error er => .error er
      | .ok tail => .ok (here ++ tail)

/-- gidgetlab.routing.Router.dispatch: collect the shallow callbacks
for the event type, then the matching deep callbacks, then invoke each
in order with the event and the extra arguments.  The result is the
ordered list of performed calls `(callback, event, args)`. -/
def Router.dispatch (r : Router) (e : Event) (args : List Json) :
    Except PyErr (List (Nat × Event × List Json)) :=
  let shallowCbs := (alookup r.shallow e.event).getD []
  match
    (match alookup r.deep e.event with
     | none => .ok []
     | some details => collectDeep e details : Except PyErr (List Nat)) with
  | .error er => .error er
  | .ok deepCbs => .ok ((shallowCbs ++ deepCbs).map (fun c => (c, e, args)))

/-- One recorded `add` call: callback, event type, and at most one
attribute pair. -/
abbrev AddOp := Nat × String × Option (String × Json)

/-- The attribute keyword list of an `AddOp`. -/
def attrsOfOp : Option (String × Json) → List (String × Json)
  | none => []
  | some kv => [kv]

/-- Perform one recorded `add` call (such calls pass at most one
attribute pair, so they never raise). -/
def applyOp (r : Router) (o : AddOp) : Router :=
  (Router.add r o.1 o.2.1 (attrsOfOp o.2.2)).1

/-- The router state built by a sequence of `add` calls on a fresh
router. -/
def buildRouter (ops : List AddOp) : Router :=
  ops.foldl applyOp Router.empty

theorem alookup_updAt_self {α β : Type} [DecidableEq α] (l : List (α × β)) (k : α)
    (d : β) (f : β → β) :
    alookup (updAt l k d f) k = some (f ((alookup l k).getD d)) := by
  induction l with
  | nil => simp [updAt, alookup]
  | cons a t ih =>
    obtain ⟨a1, b1⟩ := a
    by_cases h : a1 = k
    · subst h; simp [updAt, alookup]
    · simp [updAt, alookup, h, ih]

theorem alookup_updAt_ne {α β : Type} [DecidableEq α] (l : List (α × β)) (k k' : α)
    (d : β) (f : β → β) (h : k ≠ k') :
    alookup (updAt l k d f) k' = alookup l k' := by
  induction l with
  | nil => simp [updAt, alookup, h]
  | cons a t ih =>
    obtain ⟨a1, b1⟩ := a
    by_cases h1 : a1 = k
    · subst h1
      simp [updAt, alookup, h]
    · simp only [updAt, if_neg h1]
      by_cases h2 : a1 = k'
      · simp [alookup, h2]
      · simp [alookup, h2, ih]

/-- C10: for every headers mapping containing a content-type header of
any value and an event-type header, and a zero-byte body,
`Event.from_http` with no signature header and no configured secret
returns an Event with `data = None`: the strict content-type check in
`_decode_body` is skipped for empty bodies. -/
theorem claim10_empty_body_skips_content_type_check
    (headers : Headers) (ct ev : String)
    (htok : hget headers "x-gitlab-token" = none)
    (hct : hget headers "content-type" = some ct)
    (hev : hget headers "x-gitlab-event" = some ev) :
    Event.from_http headers .empty none = .ok ⟨.null, ev, none⟩ := by
  simp [Event.from_http, fromHttpBuild, fromHttpDecode, htok, hct, hev, decode_body]

/-- Witness for C10 at a concrete unrecognized content type. -/
theorem claim10_witness :
    Event.from_http
      [("content-type", "application/octet-stream"), ("x-gitlab-event", "Push Hook")]
      .empty none = .ok ⟨.null, "Push Hook", none⟩ :=
  claim10_empty_body_skips_content_type_check
    [("content-type", "application/octet-stream"), ("x-gitlab-event", "Push Hook")]
    "application/octet-stream" "Push Hook" (by decide) (by decide) (by decide)

/-- Counterexample to C3 as stated: a request with no signature header,
no configured secret and a body that decodes (an empty JSON object with
content-type application/json) does not return an Event when the
`x-gitlab-event` header is missing — `from_http` raises KeyError
instead. -/
theorem claim3_counterexample :
    decode_body (some "application/json") (.content "\x7b\x7d" (some (.obj [])) none)
      true = .ok (.obj []) ∧
    Event.from_http [("content-type", "application/json")]
      (.content "\x7b\x7d" (some (.obj [])) none) none = .error .keyError := by
  constructor
  · decide
  · decide

/-- C3 (amended): the three validation-failure cases hold for every
headers mapping, body and secret exactly as claimed; the success case
additionally requires the `x-gitlab-event` header to be present, and
then returns an Event whose secret is None. -/
theorem claim3_webhook_validation (headers : Headers) (body : Body)
    (secret : Option String) :
    (∀ tok, hget headers "x-gitlab-token" = some tok → secret = none →
      Event.from_http headers body secret =
        .error (.validationFailure "secret not provided")) ∧
    (∀ tok s, hget headers "x-gitlab-token" = some tok → secret = some s → tok ≠ s →
      Event.from_http headers body secret =
        .error (.validationFailure "invalid secret")) ∧
    (∀ s, hget headers "x-gitlab-token" = none → secret = some s →
      Event.from_http headers body secret =
        .error (.validationFailure "x-gitlab-token is missing")) ∧
    (∀ ct d ev, hget headers "x-gitlab-token" = none → secret = none →
      hget headers "content-type" = some ct →
      decode_body (some ct) body true = .ok d →
      hget headers "x-gitlab-event" = some ev →
      Event.from_http headers body secret = .ok ⟨d, ev, none⟩) := by
  refine ⟨?_, ?_, ?_, ?_⟩
  · intro tok htok hsec
    subst hsec
    simp [Event.from_http, htok]
  · intro tok s htok hsec hne
    subst hsec
    simp [Event.from_http, htok, hne]
  · intro s htok hsec
    subst hsec
    simp [Event.from_http, htok]
  · intro ct d ev htok hsec hct hdec hev
    subst hsec
    simp [Event.from_http, fromHttpBuild, fromHttpDecode, htok, hct, hdec, hev]

/-- Witness for C3 at concrete inputs: a mismatched signature fails and
a well-formed request with no signature succeeds with secret None. -/
theorem claim3_witness :
    Event.from_http [("x-gitlab-token", "bad")] .empty (some "1234") =
      .error (.validationFailure "invalid secret") ∧
    Event.from_http
      [("content-type", "application/json"), ("x-gitlab-event", "Push Hook")]
      (.content "\x7b\x7d" (some (.obj [])) none) none =
      .ok ⟨.obj [], "Push Hook", none⟩ :=
  ⟨(claim3_webhook_validation [("x-gitlab-token", "bad")] .empty
      (some "1234")).2.1 "bad" "1234" (by decide) rfl (by decide),
   (claim3_webhook_validation
      [("content-type", "application/json"), ("x-gitlab-event", "Push Hook")]
      (.content "\x7b\x7d" (some (.obj [])) none) none).2.2.2 "application/json"
      (.obj []) "Push Hook" (by decide) rfl (by decide) (by decide) (by decide)⟩

/-- C8: `Router.add` with more than one attribute pair raises TypeError
and leaves both dispatch tables unchanged; with zero pairs it appends
the callback to the shallow bucket of the event type without error;
with exactly one pair it appends it to the deep bucket of the event
type, key and value without error. -/
theorem claim8_add_arity (r : Router) (cb : Nat) (et : String)
    (attrs : List (String × Json)) :
    (attrs.length > 1 → r.add cb et attrs = (r, some .typeError)) ∧
    (attrs = [] → r.add cb et attrs =
      ({ r with shallow := updAt r.shallow et [] (fun cbs => cbs ++ [cb]) }, none)) ∧
    (∀ k v, attrs = [(k, v)] → r.add cb et attrs =
      ({ r with deep := (updAt r.deep et [] (fun m => updAt m k []
            (fun vm => updAt vm v [] (fun cbs => cbs ++ [cb])))) }, none)) := by
  refine ⟨?_, ?_, ?_⟩
  · intro h
    simp [Router.add, h]
  · intro h
    subst h
    simp [Router.add]
  · intro k v h
    subst h
    simp [Router.add]

/-- Witness for C8: two constraints raise TypeError with the router
unchanged; zero and one register without error. -/
theorem claim8_witness :
    Router.empty.add 1 "Push Hook" [("data", .num 42), ("too_much", .num 6)] =
      (Router.empty, some .typeError) ∧
    (Router.empty.add 1 "Push Hook" []).2 = none ∧
    (Router.empty.add 1 "Issue Hook" [("action", .str "open")]).2 = none :=
  ⟨(claim8_add_arity Router.empty 1 "Push Hook"
      [("data", .num 42), ("too_much", .num 6)]).1 (by decide),
   by rw [(claim8_add_arity Router.empty 1 "Push Hook" []).2.1 rfl],
   by rw [(claim8_add_arity Router.empty 1 "Issue Hook"
      [("action", .str "open")]).2.2 "action" (.str "open") rfl]⟩

/-- C7: whenever the deciphering of the transport's response raises
(in particular for every typed HTTP exception), `_make_request` leaves
the cache exactly as it was — no entry is added, overwritten or
removed — and, unless the 304-with-cache-hit path was taken, the
exception propagates to the caller. -/
theorem claim7_failed_exchange_preserves_cache (now : Rat) (net : Transport)
    (cfg : Config) (st : ApiState) (method url : String)
    (params : List (String × String)) (data : ReqData)
    (s : Nat) (rh : Headers) (rb : Body) (e : PyErr)
    (hresp : net method (prepare cfg st method url params data).url
      (prepare cfg st method url params data).headers
      (prepare cfg st method url params data).body = (s, rh, rb))
    (hdec : decipher_response now s rh rb = .error e) :
    (make_request now net cfg st method url params data).2.cache = st.cache ∧
    (¬(s = 304 ∧ (prepare cfg st method url params data).cached = true) →
      (make_request now net cfg st method url params data).1 = .error e) := by
  simp only [make_request, hresp, hdec]
  by_cases h : s = 304 ∧ (prepare cfg st method url params data).cached = true
  · rw [if_pos h]
    exact ⟨rfl, fun hn => absurd h hn⟩
  · rw [if_neg h]
    exact ⟨rfl, fun _ => rfl⟩

/-- Witness for C7: a 500 response raises GitLabBroken and the one-entry
cache is untouched. -/
theorem claim7_witness :
    (make_request 0 (fun _ _ _ _ => (500, [], .empty))
      ⟨"t", none, apiUrlOf "https://gitlab.com" "v4"⟩
      ⟨some [("https://gitlab.com/api/v4/fake", ⟨some "e", none, .num 42, none⟩)], none⟩
      "GET" "/fake" [] .sentinel).2.cache =
      some [("https://gitlab.com/api/v4/fake", ⟨some "e", none, .num 42, none⟩)] ∧
    (make_request 0 (fun _ _ _ _ => (500, [], .empty))
      ⟨"t", none, apiUrlOf "https://gitlab.com" "v4"⟩
      ⟨some [("https://gitlab.com/api/v4/fake", ⟨some "e", none, .num 42, none⟩)], none⟩
      "GET" "/fake" [] .sentinel).1 =
      .error (.http ⟨.gitLabBroken, 500, none, none, none⟩) := by
  have h := claim7_failed_exchange_preserves_cache 0 (fun _ _ _ _ => (500, [], .empty))
    ⟨"t", none, apiUrlOf "https://gitlab.com" "v4"⟩
    ⟨some [("https://gitlab.com/api/v4/fake", ⟨some "e", none, .num 42, none⟩)], none⟩
    "GET" "/fake" [] .sentinel 500 [] .empty
    (.http ⟨.gitLabBroken, 500, none, none, none⟩) rfl (by decide)
  exact ⟨h.1, h.2 (by decide)⟩

/-- Counterexample to C6 as stated: a 422 response whose JSON body is
the empty object (so the body decodes) does not raise InvalidField —
the `message = data["message"]` lookup in the falsy-errors branch
raises a bare KeyError. -/
theorem claim6_counterexample :
    decode_body (some "application/json; charset=utf-8")
      (.content "\x7b\x7d" (some (.obj [])) none) false = .ok (.obj []) ∧
    decipher_response 0 422 [("content-type", "application/json; charset=utf-8")]
      (.content "\x7b\x7d" (some (.obj [])) none) = .error .keyError := by
  constructor
  · decide
  · decide

/-- C6 (amended): for a 422 response whose body decodes to a JSON
object, decipher_response raises InvalidField carrying the body's
`errors` value; when `errors` is a non-empty list whose field names
join (each element an object with a `field` key) and a `message` key is
present, the exception's message is the body's message annotated with
the quoted field names; when `errors` is absent or falsy and `message`
is present, the message is carried verbatim. -/
theorem claim6_invalid_field (now : Rat) (headers : Headers) (body : Body)
    (kvs : List (String × Json))
    (hdec : decode_body (hget headers "content-type") body false = .ok (.obj kvs)) :
    (∀ es fs m, alookup kvs "errors" = some (.arr es) → es ≠ [] →
      fieldsJoin es = .ok fs → alookup kvs "message" = some m →
      decipher_response now 422 headers body =
        .error (.http ⟨.invalidField, 422, some (.str (pyStr m ++ " for " ++ fs)),
          none, some (.arr es)⟩)) ∧
    (∀ m,
      (match alookup kvs "errors" with
       | some j => j.truthy
       | none => false) = false →
      alookup kvs "message" = some m →
      decipher_response now 422 headers body =
        .error (.http ⟨.invalidField, 422, some m, none, alookup kvs "errors"⟩)) := by
  constructor
  · intro es fs m herrs hne hjoin hmsg
    have hth : (Json.arr es).truthy = true := by
      simp [Json.truthy, hne]
    simp [decipher_response, errorBranch, hdec, herrs, hmsg, hth, pyIter, hjoin,
      Json.get?]
  · intro m hfalsy hmsg
    simp [decipher_response, errorBranch, hdec, hmsg, hfalsy, Json.get?]

/-- Witness for C6 at the repository's own 422 test payload. -/
theorem claim6_witness :
    decipher_response 0 422 [("content-type", "application/json; charset=utf-8")]
      (.content "x"
        (some (.obj [("message", .str "it went bad"),
          ("errors", .arr [.obj [("resource", .str "Issue"), ("field", .str "title"),
            ("code", .str "missing_field")]])])) none) =
      .error (.http ⟨.invalidField, 422, some (.str "it went bad for \x27title\x27"),
        none, some (.arr [.obj [("resource", .str "Issue"), ("field", .str "title"),
          ("code", .str "missing_field")]])⟩) := by
  have h := (claim6_invalid_field 0
    [("content-type", "application/json; charset=utf-8")]
    (.content "x"
      (some (.obj [("message", .str "it went bad"),
        ("errors", .arr [.obj [("resource", .str "Issue"), ("field", .str "title"),
          ("code", .str "missing_field")]])])) none)
    [("message", .str "it went bad"),
     ("errors", .arr [.obj [("resource", .str "Issue"), ("field", .str "title"),
       ("code", .str "missing_field")]])]
    (by decide)).1
    [.obj [("resource", .str "Issue"), ("field", .str "title"),
      ("code", .str "missing_field")]]
    "\x27title\x27" (.str "it went bad") (by decide) (by decide) (by decide) (by decide)
  exact h

/-- Counterexample to C1 as stated: status 599 is ≥ 500 but is not a
member of the `http.HTTPStatus` enumeration, so `decipher_response`
raises ValueError (from `http.HTTPStatus(status_code)`) rather than
GitLabBroken. -/
theorem claim1_counterexample :
    decipher_response 0 599 [] .empty = .error .valueError ∧
    isStdStatus 599 = false := by
  constructor
  · decide
  · decide

/-- C1 (amended): for every response whose body decodes and whose
rate-limit headers parse, a success status (200/201/202/204) returns
the decoded body, rate limit and next link without raising; for every
other status belonging to the standard `http.HTTPStatus` set, the
exception kind follows the status range — ≥ 500 GitLabBroken; 403 with
parsed rate limit, `remaining = 0` and the reset instant passed,
RateLimitExceeded carrying the snapshot; any other 400–499 except 422
(including 403 without an exhausted-and-expired limit) BadRequest;
300–399 RedirectionException; anything else the generic HTTPException —
and the exception carries the numeric status and the body's `message`
value when that key is present with a truthy value. -/
theorem claim1_status_classification (now : Rat) (statusCode : Nat)
    (headers : Headers) (body : Body) (data : Json) (orl : Option RateLimit)
    (hdec : decode_body (hget headers "content-type") body false = .ok data)
    (hrl : RateLimit.from_http headers = .ok orl) :
    (statusCode = 200 ∨ statusCode = 201 ∨ statusCode = 202 ∨ statusCode = 204 →
      decipher_response now statusCode headers body =
        .ok (data, orl, next_link (hget headers "link"))) ∧
    (isStdStatus statusCode = true →
      ¬(statusCode = 200 ∨ statusCode = 201 ∨ statusCode = 202 ∨ statusCode = 204) →
      ((500 ≤ statusCode →
        decipher_response now statusCode headers body =
          .error (.http ⟨.gitLabBroken, statusCode,
            truthyArg (Json.get? data "message"), none, none⟩)) ∧
       (∀ r, statusCode = 403 → orl = some r → r.remaining = 0 →
        r.toBool now = true →
        decipher_response now statusCode headers body =
          .error (.http ⟨.rateLimitExceeded, 403,
            some ((Json.get? data "message").getD .null), some r, none⟩)) ∧
       (400 ≤ statusCode → statusCode < 500 → statusCode ≠ 422 →
        (∀ r, statusCode = 403 → orl = some r →
          ¬(r.toBool now = true ∧ r.remaining = 0)) →
        decipher_response now statusCode headers body =
          .error (.http ⟨.badRequest, statusCode,
            truthyArg (Json.get? data "message"), none, none⟩)) ∧
       (300 ≤ statusCode → statusCode < 400 →
        decipher_response now statusCode headers body =
          .error (.http ⟨.redirection, statusCode,
            truthyArg (Json.get? data "message"), none, none⟩)) ∧
       (statusCode < 300 →
        decipher_response now statusCode headers body =
          .error (.http ⟨.plain, statusCode,
            truthyArg (Json.get? data "message"), none, none⟩)))) := by
  constructor
  · intro hs
    simp only [decipher_response, hdec]
    rw [if_pos hs, hrl]
  · intro hstd hns
    have hbase : decipher_response now statusCode headers body =
        errorBranch now statusCode headers data := by
      simp only [decipher_response, hdec]
      rw [if_neg hns]
    refine ⟨?_, ?_, ?_, ?_, ?_⟩
    · intro h500
      rw [hbase]
      simp only [errorBranch]
      rw [if_pos h500]
      simp [httpTail, hstd]
    · intro r h403 horl hrem hbool
      subst h403
      rw [hbase]
      simp only [errorBranch]
      rw [hrl, horl]
      simp [hbool, hrem]
    · intro h400 hlt500 h422 hno403
      rw [hbase]
      simp only [errorBranch]
      rw [if_neg (show ¬(500 ≤ statusCode) by omega), if_pos h400]
      by_cases h403 : statusCode = 403
      · subst h403
        cases horl : orl with
        | none =>
          rw [horl] at hrl
          rw [hrl]
          simp [httpTail, hstd]
        | some r =>
          rw [horl] at hrl
          have hq := hno403 r rfl horl
          have hcond : (r.toBool now && decide (r.remaining = 0)) = false := by
            cases hb : r.toBool now with
            | false => simp
            | true =>
              have hr0 : ¬(r.remaining = 0) := fun h0 => hq ⟨hb, h0⟩
              simp [hr0]
          rw [hrl]
          simp [hcond, httpTail, hstd]
      · rw [if_neg h403, if_neg h422]
        simp [httpTail, hstd]
    · intro h300 hlt400
      rw [hbase]
      simp only [errorBranch]
      rw [if_neg (show ¬(500 ≤ statusCode) by omega),
        if_neg (show ¬(400 ≤ statusCode) by omega), if_pos h300]
      simp [httpTail, hstd]
    · intro hlt300
      rw [hbase]
      simp only [errorBranch]
      rw [if_neg (show ¬(500 ≤ statusCode) by omega),
        if_neg (show ¬(400 ≤ statusCode) by omega),
        if_neg (show ¬(300 ≤ statusCode) by omega)]
      simp [httpTail, hstd]

/-- Witness for C1 at concrete responses: 502 → GitLabBroken,
403 with an exhausted and expired rate limit → RateLimitExceeded
carrying the snapshot, 301 → RedirectionException, 205 → generic
HTTPException, 200 → success triple. -/
theorem claim1_witness :
    decipher_response 0 502 [] .empty =
      .error (.http ⟨.gitLabBroken, 502, none, none, none⟩) ∧
    decipher_response 10 403
      [("content-type", "application/json; charset=utf-8"),
       ("ratelimit-limit", "2"), ("ratelimit-remaining", "0"),
       ("ratelimit-reset", "1")]
      (.content "x" (some (.obj [("message", .str "oops")])) none) =
      .error (.http ⟨.rateLimitExceeded, 403, some (.str "oops"),
        some ⟨2, 0, 1⟩, none⟩) ∧
    decipher_response 0 301 [] .empty =
      .error (.http ⟨.redirection, 301, none, none, none⟩) ∧
    decipher_response 0 205 [] .empty =
      .error (.http ⟨.plain, 205, none, none, none⟩) ∧
    decipher_response 0 200 [] .empty = .ok (.null, none, none) := by
  refine ⟨?_, ?_, ?_, ?_, ?_⟩
  · exact ((claim1_status_classification 0 502 [] .empty .null none
      (by decide) (by decide)).2 (by decide) (by decide)).1 (by decide)
  · exact ((claim1_status_classification 10 403
      [("content-type", "application/json; charset=utf-8"),
       ("ratelimit-limit", "2"), ("ratelimit-remaining", "0"),
       ("ratelimit-reset", "1")]
      (.content "x" (some (.obj [("message", .str "oops")])) none)
      (.obj [("message", .str "oops")]) (some ⟨2, 0, 1⟩)
      (by decide) (by decide)).2 (by decide) (by decide)).2.1
      ⟨2, 0, 1⟩ rfl rfl (by decide) (by decide)
  · exact (((claim1_status_classification 0 301 [] .empty .null none
      (by decide) (by decide)).2 (by decide) (by decide)).2.2.2.1 (by decide)
      (by decide))
  · exact (((claim1_status_classification 0 205 [] .empty .null none
      (by decide) (by decide)).2 (by decide) (by decide)).2.2.2.2 (by decide))
  · exact (claim1_status_classification 0 200 [] .empty .null none
      (by decide) (by decide)).1 (by decide)

theorem isPrefixList_head {a : Char} {as l : List Char}
    (h : isPrefixList (a :: as) l = true) : l.head? = some a := by
  cases l with
  | nil => simp [isPrefixList] at h
  | cons b bs =>
    simp only [isPrefixList, Bool.and_eq_true, beq_iff_eq] at h
    rw [h.1]
    rfl

theorem lstripSlash_of_head_ne (p : String) (h : p.data.head? ≠ some '/') :
    lstripSlash p = p := by
  obtain ⟨l⟩ := p
  simp only [lstripSlash]
  cases l with
  | nil => rfl
  | cons c cs =>
    simp only [List.head?, ne_eq, Option.some.injEq] at h
    simp [List.dropWhile, h]

theorem lstripSlash_slash_append (p : String) :
    lstripSlash ("/" ++ p) = lstripSlash p := by
  obtain ⟨l⟩ := p
  show lstripSlash ⟨'/' :: l⟩ = lstripSlash ⟨l⟩
  simp [lstripSlash, List.dropWhile]

theorem prepare_url (cfg : Config) (st : ApiState) (method url : String)
    (params : List (String × String)) (data : ReqData) :
    (prepare cfg st method url params data).url = format_url cfg.apiUrl url params := by
  cases data with
  | sentinel =>
    simp only [prepare]
    by_cases hm : method = "GET"
    · rw [if_pos hm]
      cases hst : st.cache with
      | none => simp [hst]
      | some c =>
        cases halk : alookup c (format_url cfg.apiUrl url params) with
        | none => simp [hst, halk]
        | some e => simp [hst, halk]
    · rw [if_neg hm]
  | json j => rfl

theorem prepare_not_eligible (cfg : Config) (st : ApiState) (method url : String)
    (params : List (String × String)) (data : ReqData)
    (h : ¬(method = "GET" ∧ data = .sentinel)) :
    (prepare cfg st method url params data).cacheable = false ∧
    (prepare cfg st method url params data).cached = false ∧
    hget (prepare cfg st method url params data).headers "if-none-match" = none ∧
    hget (prepare cfg st method url params data).headers "if-modified-since" = none := by
  cases data with
  | sentinel =>
    have hm : ¬(method = "GET") := fun hg => h ⟨hg, rfl⟩
    simp only [prepare, if_neg hm]
    cases cfg.accessToken with
    | none => simp [hget, alookup, create_headers]
    | some tok => simp [hget, alookup, create_headers]
  | json j =>
    simp only [prepare]
    cases cfg.accessToken with
    | none => simp [hget, alookup, create_headers]
    | some tok => simp [hget, alookup, create_headers]

theorem make_request_cache_of_not_cacheable (now : Rat) (net : Transport)
    (cfg : Config) (st : ApiState) (method url : String)
    (params : List (String × String)) (data : ReqData)
    (hcb : (prepare cfg st method url params data).cacheable = false) :
    (make_request now net cfg st method url params data).2.cache = st.cache := by
  rcases hn : net method (prepare cfg st method url params data).url
    (prepare cfg st method url params data).headers
    (prepare cfg st method url params data).body with ⟨s, rh, rb⟩
  simp only [make_request, hn]
  by_cases h304 : s = 304 ∧ (prepare cfg st method url params data).cached = true
  · rw [if_pos h304]
  · rw [if_neg h304]
    cases hd : decipher_response now s rh rb with
    | error e => rfl
    | ok v =>
      obtain ⟨d, rl, more⟩ := v
      cases hcache : st.cache with
      | none => simp [hcache]
      | some c => simp [hcache, hcb]

/-- C2: with a configured cache, a request is cache-eligible exactly
when the method is GET and the data argument is the no-body sentinel;
an eligible request whose resolved URL has a stored entry sends
`if-none-match` (when the stored etag is not None) and
`if-modified-since` (when the stored last-modified is not None); a 200
response carrying an etag or last-modified header overwrites the cache
entry for the resolved URL with (etag, last-modified, decoded payload,
next page); and a non-eligible request sends no conditional headers and
leaves the cache untouched. -/
theorem claim2_cache_semantics (now : Rat) (net : Transport) (cfg : Config)
    (st : ApiState) (c : Cache) (method url : String)
    (params : List (String × String)) (data : ReqData)
    (hc : st.cache = some c) :
    ((prepare cfg st method url params data).cacheable = true ↔
      (method = "GET" ∧ data = .sentinel)) ∧
    (∀ entry, method = "GET" → data = .sentinel →
      alookup c (prepare cfg st method url params data).url = some entry →
      ((∀ t, entry.etag = some t →
        hget (prepare cfg st method url params data).headers "if-none-match" =
          some t) ∧
       (∀ lm, entry.lastModified = some lm →
        hget (prepare cfg st method url params data).headers "if-modified-since" =
          some lm))) ∧
    (∀ rh rb d rl more, method = "GET" → data = .sentinel →
      net method (prepare cfg st method url params data).url
        (prepare cfg st method url params data).headers
        (prepare cfg st method url params data).body = (200, rh, rb) →
      decipher_response now 200 rh rb = .ok (d, rl, more) →
      ((hget rh "etag").isSome || (hget rh "last-modified").isSome) = true →
      (make_request now net cfg st method url params data).2.cache =
        some (setKV c (prepare cfg st method url params data).url
          ⟨hget rh "etag", hget rh "last-modified", d, more⟩)) ∧
    (¬(method = "GET" ∧ data = .sentinel) →
      (hget (prepare cfg st method url params data).headers "if-none-match" = none ∧
       hget (prepare cfg st method url params data).headers "if-modified-since" = none ∧
       (make_request now net cfg st method url params data).2.cache = st.cache)) := by
  refine ⟨?_, ?_, ?_, ?_⟩
  · cases data with
    | sentinel =>
      by_cases hm : method = "GET"
      · subst hm
        simp only [prepare, hc, if_pos rfl]
        cases alookup c (format_url cfg.apiUrl url params) <;> simp
      · simp only [prepare, if_neg hm]
        simp [hm]
    | json j => simp [prepare]
  · intro entry hm hd hlk
    subst hm
    subst hd
    rw [prepare_url] at hlk
    obtain ⟨oet, olm, pay, npg⟩ := entry
    have hp : prepare cfg st "GET" url params .sentinel =
        ⟨format_url cfg.apiUrl url params,
          create_headers cfg.requester cfg.accessToken ++ [("content-length", "0")]
            ++ (match oet with
                | some t => [("if-none-match", t)]
                | none => [])
            ++ (match olm with
                | some lm => [("if-modified-since", lm)]
                | none => []),
          none, true, true, pay, npg⟩ := by
      simp only [prepare, hc, hlk]
      rw [if_pos trivial]
      cases oet <;> cases olm <;> rfl
    rw [hp]
    constructor
    · intro t het
      have het2 : oet = some t := het
      subst het2
      cases olm with
      | none => cases cfg.accessToken <;> rfl
      | some lm => cases cfg.accessToken <;> rfl
    · intro lm hlm
      have hlm2 : olm = some lm := hlm
      subst hlm2
      cases oet with
      | none => cases cfg.accessToken <;> rfl
      | some t => cases cfg.accessToken <;> rfl
  · intro rh rb d rl more hm hd hnet hdec hdetails
    subst hm
    subst hd
    have hcb : (prepare cfg st "GET" url params .sentinel).cacheable = true := by
      simp only [prepare, hc, if_pos rfl]
      cases alookup c (format_url cfg.apiUrl url params) <;> rfl
    simp only [make_request, hnet]
    rw [if_neg (by simp)]
    rw [hdec]
    simp only [hc, hcb, hdetails]
    rfl
  · intro hne
    obtain ⟨h1, h2, h3, h4⟩ := prepare_not_eligible cfg st method url params data hne
    exact ⟨h3, h4,
      make_request_cache_of_not_cacheable now net cfg st method url params data h1⟩

/-- Witness for C2 at concrete inputs mirroring the repository's cache
tests: an eligible GET with a stored etag sends `if-none-match`, a 200
with fresh validators overwrites the entry, and a POST leaves the
cache alone. -/
theorem claim2_witness :
    (prepare ⟨"t", none, apiUrlOf "https://gitlab.com" "v4"⟩
      ⟨some [("https://gitlab.com/api/v4/fake", ⟨some "12345", none, .str "hi", none⟩)],
        none⟩ "GET" "/fake" [] .sentinel).cacheable = true ∧
    hget (prepare ⟨"t", none, apiUrlOf "https://gitlab.com" "v4"⟩
      ⟨some [("https://gitlab.com/api/v4/fake", ⟨some "12345", none, .str "hi", none⟩)],
        none⟩ "GET" "/fake" [] .sentinel).headers "if-none-match" = some "12345" ∧
    (make_request 0 (fun _ _ _ _ => (200, [("etag", "09876")], .empty))
      ⟨"t", none, apiUrlOf "https://gitlab.com" "v4"⟩
      ⟨some [("https://gitlab.com/api/v4/fake", ⟨some "12345", none, .str "hi", none⟩)],
        none⟩ "GET" "/fake" [] .sentinel).2.cache =
      some [("https://gitlab.com/api/v4/fake", ⟨some "09876", none, .null, none⟩)] ∧
    (make_request 0 (fun _ _ _ _ => (200, [("etag", "09876")], .empty))
      ⟨"t", none, apiUrlOf "https://gitlab.com" "v4"⟩
      ⟨some [("https://gitlab.com/api/v4/fake", ⟨some "12345", none, .str "hi", none⟩)],
        none⟩ "POST" "/fake" [] (.json (.num 42))).2.cache =
      some [("https://gitlab.com/api/v4/fake", ⟨some "12345", none, .str "hi", none⟩)] := by
  refine ⟨?_, ?_, ?_, ?_⟩
  · exact (claim2_cache_semantics 0 (fun _ _ _ _ => (200, [("etag", "09876")], .empty))
      ⟨"t", none, apiUrlOf "https://gitlab.com" "v4"⟩
      ⟨some [("https://gitlab.com/api/v4/fake", ⟨some "12345", none, .str "hi", none⟩)],
        none⟩
      [("https://gitlab.com/api/v4/fake", ⟨some "12345", none, .str "hi", none⟩)]
      "GET" "/fake" [] .sentinel rfl).1.mpr ⟨rfl, rfl⟩
  · exact ((claim2_cache_semantics 0 (fun _ _ _ _ => (200, [("etag", "09876")], .empty))
      ⟨"t", none, apiUrlOf "https://gitlab.com" "v4"⟩
      ⟨some [("https://gitlab.com/api/v4/fake", ⟨some "12345", none, .str "hi", none⟩)],
        none⟩
      [("https://gitlab.com/api/v4/fake", ⟨some "12345", none, .str "hi", none⟩)]
      "GET" "/fake" [] .sentinel rfl).2.1
      ⟨some "12345", none, .str "hi", none⟩ rfl rfl (by decide)).1 "12345" rfl
  · exact (claim2_cache_semantics 0 (fun _ _ _ _ => (200, [("etag", "09876")], .empty))
      ⟨"t", none, apiUrlOf "https://gitlab.com" "v4"⟩
      ⟨some [("https://gitlab.com/api/v4/fake", ⟨some "12345", none, .str "hi", none⟩)],
        none⟩
      [("https://gitlab.com/api/v4/fake", ⟨some "12345", none, .str "hi", none⟩)]
      "GET" "/fake" [] .sentinel rfl).2.2.1 [("etag", "09876")] .empty .null none none
      rfl rfl (by decide) (by decide) (by decide)
  · exact ((claim2_cache_semantics 0 (fun _ _ _ _ => (200, [("etag", "09876")], .empty))
      ⟨"t", none, apiUrlOf "https://gitlab.com" "v4"⟩
      ⟨some [("https://gitlab.com/api/v4/fake", ⟨some "12345", none, .str "hi", none⟩)],
        none⟩
      [("https://gitlab.com/api/v4/fake", ⟨some "12345", none, .str "hi", none⟩)]
      "POST" "/fake" [] (.json (.num 42)) rfl).2.2.2 (by simp)).2.2

theorem takeWhile_append_stop {p : Char → Bool} {l : List Char} (x : Char)
    (r : List Char) (hl : ∀ c ∈ l, p c = true) (hx : p x = false) :
    List.takeWhile p (l ++ x :: r) = l := by
  induction l with
  | nil => simp [List.takeWhile, hx]
  | cons a t ih =>
    have ha : p a = true := hl a (by simp)
    simp only [List.cons_append, List.takeWhile, ha]
    exact congrArg (List.cons a) (ih (fun c hc => hl c (by simp [hc])))

/-- An RFC-5988 link entry `<uri>; rel="value"`. -/
def renderEntry (u v : String) : String :=
  "<" ++ u ++ ">; rel=\"" ++ v ++ "\""

/-- A comma-separated link header. -/
def renderLink : List (String × String) → String
  | [] => ""
  | [e] => renderEntry e.1 e.2
  | e :: t => renderEntry e.1 e.2 ++ ", " ++ renderLink t

/-- The first `rel="next"` entry's URI, the specified meaning of the
link header. -/
def firstRelNext : List (String × String) → Option String
  | [] => none
  | (u, v) :: t => if v = "next" then some u else firstRelNext t

/-- Well-formed link entries: non-empty URIs free of `>`, non-empty
word-character rel values. -/
def linkWf (entries : List (String × String)) : Prop :=
  ∀ e ∈ entries, e.1 ≠ "" ∧ (∀ c ∈ e.1.data, c ≠ '>') ∧ e.2 ≠ "" ∧
    e.2.data.all isWordChar = true

theorem matchAfterLt_render (u v : String) (rest : List Char)
    (hu : u ≠ "") (hugt : ∀ c ∈ u.data, c ≠ '>')
    (hv : v ≠ "") (hvw : v.data.all isWordChar = true) :
    matchAfterLt (u.data ++ '>' :: ';' :: ' ' :: 'r' :: 'e' :: 'l' :: '=' :: '"' ::
      (v.data ++ '"' :: rest)) = some (u, "rel", v, dropSep rest) := by
  have hud : u.data ≠ [] := fun h => hu (by cases u; simp_all)
  have hvd : v.data ≠ [] := fun h => hv (by cases v; simp_all)
  have htw1 : List.takeWhile (fun c => c ≠ '>')
      (u.data ++ '>' :: ';' :: ' ' :: 'r' :: 'e' :: 'l' :: '=' :: '"' ::
        (v.data ++ '"' :: rest)) = u.data := by
    apply takeWhile_append_stop
    · intro c hc
      simp [hugt c hc]
    · simp
  have hue : (u.data).isEmpty = false := by
    cases hh : u.data with
    | nil => exact absurd hh hud
    | cons a t => rfl
  have hve : (v.data).isEmpty = false := by
    cases hh : v.data with
    | nil => exact absurd hh hvd
    | cons a t => rfl
  have hsp : List.dropWhile isSpaceChar
      (' ' :: 'r' :: 'e' :: 'l' :: '=' :: '"' :: (v.data ++ '"' :: rest)) =
      'r' :: 'e' :: 'l' :: '=' :: '"' :: (v.data ++ '"' :: rest) := by
    simp [List.dropWhile, isSpaceChar]
  have htw2 : List.takeWhile isWordChar
      ('r' :: 'e' :: 'l' :: '=' :: '"' :: (v.data ++ '"' :: rest)) =
      ['r', 'e', 'l'] := by
    have h0 : ('r' :: 'e' :: 'l' :: '=' :: '"' :: (v.data ++ '"' :: rest)) =
        ['r', 'e', 'l'] ++ '=' :: ('"' :: (v.data ++ '"' :: rest)) := rfl
    rw [h0]
    apply takeWhile_append_stop
    · intro c hc
      fin_cases hc <;> rfl
    · rfl
  have hd3 : List.drop (['r', 'e', 'l'] : List Char).length
      ('r' :: 'e' :: 'l' :: '=' :: '"' :: (v.data ++ '"' :: rest)) =
      '=' :: '"' :: (v.data ++ '"' :: rest) := rfl
  have htw3 : List.takeWhile isWordChar (v.data ++ '"' :: rest) = v.data := by
    apply takeWhile_append_stop
    · intro c hc
      simp only [List.all_eq_true] at hvw
      exact hvw c hc
    · rfl
  simp only [matchAfterLt, htw1, hue, List.drop_left, hsp, htw2, hd3, htw3, hve,
    Bool.false_eq_true, if_false, List.isEmpty_cons]

theorem renderLink_cons_shape (e : String × String) (t : List (String × String)) :
    ∃ X, (renderLink (e :: t)).data = '<' :: X := by
  cases t with
  | nil => exact ⟨_, rfl⟩
  | cons e2 t2 => exact ⟨_, rfl⟩

theorem renderLink_nil_data (u v : String) :
    (renderLink [(u, v)]).data =
      '<' :: (u.data ++ '>' :: ';' :: ' ' :: 'r' :: 'e' :: 'l' :: '=' :: '"' ::
        (v.data ++ '"' :: [])) := by
  show (('<' :: u.data) ++ ['>', ';', ' ', 'r', 'e', 'l', '=', '"'] ++ v.data ++
    ['"'] : List Char) = _
  simp [List.append_assoc]

theorem renderLink_cons_data (u v : String) (e2 : String × String)
    (t2 : List (String × String)) :
    (renderLink ((u, v) :: e2 :: t2)).data =
      '<' :: (u.data ++ '>' :: ';' :: ' ' :: 'r' :: 'e' :: 'l' :: '=' :: '"' ::
        (v.data ++ '"' :: (',' :: ' ' :: (renderLink (e2 :: t2)).data))) := by
  show (('<' :: u.data) ++ ['>', ';', ' ', 'r', 'e', 'l', '=', '"'] ++ v.data ++
    ['"'] ++ [',', ' '] ++ (renderLink (e2 :: t2)).data : List Char) = _
  simp [List.append_assoc]

theorem findNextLoop_render (entries : List (String × String)) :
    ∀ fuel, linkWf entries → (renderLink entries).data.length ≤ fuel →
    findNextLoop fuel (renderLink entries).data = firstRelNext entries := by
  induction entries with
  | nil =>
    intro fuel _ _
    show findNextLoop fuel [] = none
    cases fuel <;> rfl
  | cons e t ih =>
    intro fuel hwf hfuel
    obtain ⟨u, v⟩ := e
    obtain ⟨hu, hugt, hv, hvw⟩ := hwf (u, v) (by simp)
    cases t with
    | nil =>
      rw [renderLink_nil_data] at hfuel ⊢
      match fuel, hfuel with
      | f + 1, hfuel =>
        show findNextLoop (f + 1) ('<' :: _) = _
        simp only [findNextLoop,
          matchAfterLt_render u v [] hu hugt hv hvw,
          if_true, decide_True, Bool.true_and]
        by_cases hvn : v = "next"
        · rw [if_pos (by simp [hvn])]
          simp [firstRelNext, hvn]
        · rw [if_neg (by simp [hvn])]
          show findNextLoop f (dropSep []) = _
          simp only [firstRelNext, if_neg hvn]
          show findNextLoop f [] = none
          cases f <;> rfl
    | cons e2 t2 =>
      rw [renderLink_cons_data] at hfuel ⊢
      match fuel, hfuel with
      | f + 1, hfuel =>
        show findNextLoop (f + 1) ('<' :: _) = _
        simp only [findNextLoop,
          matchAfterLt_render u v (',' :: ' ' :: (renderLink (e2 :: t2)).data)
            hu hugt hv hvw,
          if_true, decide_True, Bool.true_and]
        have hds : dropSep (',' :: ' ' :: (renderLink (e2 :: t2)).data) =
            (renderLink (e2 :: t2)).data := by
          obtain ⟨X, hX⟩ := renderLink_cons_shape e2 t2
          rw [hX]
          simp [dropSep, List.dropWhile, isSpaceChar]
        have hlen : (renderLink (e2 :: t2)).data.length ≤ f := by
          have h1 : ('<' :: (u.data ++ '>' :: ';' :: ' ' :: 'r' :: 'e' :: 'l' ::
              '=' :: '"' :: (v.data ++ '"' :: (',' :: ' ' ::
                (renderLink (e2 :: t2)).data)))).length ≤ f + 1 := hfuel
          simp only [List.length_cons, List.length_append] at h1
          omega
        by_cases hvn : v = "next"
        · rw [if_pos (by simp [hvn])]
          simp [firstRelNext, hvn]
        · rw [if_neg (by simp [hvn])]
          rw [hds]
          simp only [firstRelNext, if_neg hvn]
          exact ih f (fun x hx => hwf x (by simp [hx])) hlen

theorem make_request_nocache (now : Rat) (serve : String → Nat × Headers × Body)
    (cfg : Config) (st : ApiState) (u : String) (params : List (String × String))
    (d : Json) (rl : Option RateLimit) (more : Option String)
    (hcache : st.cache = none)
    (hdec : decipher_response now (serve (format_url cfg.apiUrl u params)).1
      (serve (format_url cfg.apiUrl u params)).2.1
      (serve (format_url cfg.apiUrl u params)).2.2 = .ok (d, rl, more)) :
    make_request now (fun _ v _ _ => serve v) cfg st "GET" u params .sentinel =
      (.ok (d, more), ⟨none, rl⟩) := by
  have hp : prepare cfg st "GET" u params .sentinel =
      ⟨format_url cfg.apiUrl u params,
        create_headers cfg.requester cfg.accessToken ++
        [("content-length", "0")], none, false, false, .null, none⟩ := by
    simp [prepare, hcache]
  simp only [make_request, hp]
  rw [if_neg (by simp)]
  rw [hdec]
  simp [hcache]

/-- The network serves a chain of pages: each page is requested at the
URL `format_url` builds from its (non-empty) page URL and the fixed
query params, deciphering its response yields its JSON list of items,
and the extracted next link points at the next page of the chain (None
at the end). -/
def servesChain (now : Rat) (serve : String → Nat × Headers × Body)
    (apiUrl : String) (params : List (String × String)) :
    List (String × List Json) → Prop
  | [] => True
  | (u, items) :: rest =>
    u.isEmpty = false ∧
    (∃ rl, decipher_response now (serve (format_url apiUrl u params)).1
      (serve (format_url apiUrl u params)).2.1
      (serve (format_url apiUrl u params)).2.2 =
      .ok (.arr items, rl, rest.head?.map Prod.fst)) ∧
    servesChain now serve apiUrl params rest

theorem getiter_succ (now : Rat) (net : Transport) (cfg : Config) (fuel : Nat)
    (st : ApiState) (url : String) (params : List (String × String)) :
    getiter now net cfg (fuel + 1) st url params =
      match make_request now net cfg st "GET" url params .sentinel with
      | (.error e, _) => .error e
      | (.ok (d, more), st') =>
        match pyIter d with
        | .error e => .error e
        | .ok items =>
          match more with
          | some nxt =>
            if nxt.isEmpty then .ok (items, st')
            else
              match getiter now net cfg fuel st' nxt params with
              | .error e => .error e
              | .ok (rest, st'') => .ok (items ++ rest, st'')
          | none => .ok (items, st') := rfl

theorem getiter_chain (now : Rat) (serve : String → Nat × Headers × Body)
    (cfg : Config) (params : List (String × String))
    (pages : List (String × List Json)) :
    ∀ (st : ApiState) (u : String) (items : List Json), st.cache = none →
    servesChain now serve cfg.apiUrl params ((u, items) :: pages) →
    (getiter now (fun _ v _ _ => serve v) cfg (pages.length + 1) st u params).map
      Prod.fst = .ok (items ++ (pages.map Prod.snd).flatten) := by
  induction pages with
  | nil =>
    intro st u items hcache hchain
    obtain ⟨-, ⟨rl, hdec⟩, -⟩ := hchain
    have hdec2 : decipher_response now
        (serve (format_url cfg.apiUrl u params)).1
        (serve (format_url cfg.apiUrl u params)).2.1
        (serve (format_url cfg.apiUrl u params)).2.2 =
        .ok (.arr items, rl, none) := hdec
    show (getiter now (fun _ v _ _ => serve v) cfg (0 + 1) st u params).map
      Prod.fst = _
    rw [getiter_succ,
      make_request_nocache now serve cfg st u params (.arr items) rl none
        hcache hdec2]
    simp [pyIter, Except.map]
  | cons p2 rest ih =>
    intro st u items hcache hchain
    obtain ⟨u2, items2⟩ := p2
    obtain ⟨-, ⟨rl, hdec⟩, hchain2⟩ := hchain
    have hne2 : u2.isEmpty = false := hchain2.1
    have hdec2 : decipher_response now
        (serve (format_url cfg.apiUrl u params)).1
        (serve (format_url cfg.apiUrl u params)).2.1
        (serve (format_url cfg.apiUrl u params)).2.2 =
        .ok (.arr items, rl, some u2) := hdec
    show (getiter now (fun _ v _ _ => serve v) cfg (rest.length + 1 + 1)
      st u params).map Prod.fst = _
    rw [getiter_succ,
      make_request_nocache now serve cfg st u params (.arr items) rl (some u2)
        hcache hdec2]
    simp only [pyIter]
    rw [if_neg (by simp [hne2])]
    have hrec := ih ⟨none, rl⟩ u2 items2 rfl hchain2
    cases hg : getiter now (fun _ v _ _ => serve v) cfg (rest.length + 1)
        ⟨none, rl⟩ u2 params with
    | error e =>
      rw [hg] at hrec
      simp [Except.map] at hrec
    | ok pair =>
      rw [hg] at hrec
      simp only [Except.map, Except.ok.injEq] at hrec
      obtain ⟨resItems, resSt⟩ := pair
      simp only at hrec
      subst hrec
      simp [Except.map]

/-- C5: (1) whenever the transport serves a chain of pages — each page
a JSON list with a link header whose extracted next link points at the
following page and the last page without one, every page requested at
the URL `format_url` builds from the page URL and the query params —
`getiter` with any params yields all items of the first page in order
followed by the items of all linked pages in order, issuing each
follow-up GET against the extracted URL with the same params; (2) the
link-header parser returns exactly the URI of the first comma-separated
entry whose rel parameter is `next`, ignoring all other link
relations. -/
theorem claim5_pagination :
    (∀ (now : Rat) (serve : String → Nat × Headers × Body) (cfg : Config)
      (st : ApiState) (params : List (String × String))
      (pages : List (String × List Json)) (u : String)
      (items : List Json), st.cache = none →
      servesChain now serve cfg.apiUrl params ((u, items) :: pages) →
      (getiter now (fun _ v _ _ => serve v) cfg (pages.length + 1) st u
        params).map Prod.fst = .ok (items ++ (pages.map Prod.snd).flatten)) ∧
    (∀ entries, linkWf entries →
      next_link (some (renderLink entries)) = firstRelNext entries) := by
  constructor
  · intro now serve cfg st params pages u items hcache hchain
    exact getiter_chain now serve cfg params pages st u items hcache hchain
  · intro entries hwf
    show findNextLoop (renderLink entries).data.length (renderLink entries).data = _
    exact findNextLoop_render entries _ hwf le_rfl

/-- A two-page server keyed on the query-merged URLs: page 1 (requested
with the `per_page=2` param) carries a `rel="next"` link to page 2,
both pages are the JSON list `[1, 2]`; any other URL is a 404. -/
def pageServe : String → Nat × Headers × Body := fun v =>
  if v = "https://gitlab.com/api/v4/fake?per_page=2" then
    (200, [("content-type", "application/json"),
      ("link", "<https://gitlab.com/api/v4/fake?page=2>; rel=\"next\"")],
      .content "[1, 2]" (some (.arr [.num 1, .num 2])) none)
  else if v = "https://gitlab.com/api/v4/fake?page=2&per_page=2" then
    (200, [("content-type", "application/json")],
      .content "[1, 2]" (some (.arr [.num 1, .num 2])) none)
  else
    (404, [("content-type", "application/json")], .content "" none none)

/-- Witness for C5: the two-page chain requested with the non-empty
params `per_page=2` yields [1, 2, 1, 2] — the follow-up GET re-merges
the same params into the extracted URL — and only the `rel="next"`
entry of a multi-relation link header is used. -/
theorem claim5_witness :
    (getiter 0 (fun _ v _ _ => pageServe v)
      ⟨"t", none, "https://gitlab.com/api/v4/"⟩ 2 ⟨none, none⟩
      "https://gitlab.com/api/v4/fake" [("per_page", "2")]).map Prod.fst =
      .ok [.num 1, .num 2, .num 1, .num 2] ∧
    next_link (some "<http://a>; rel=\"prev\", <http://b>; rel=\"next\"") =
      some "http://b" := by
  constructor
  · have h := claim5_pagination.1 0 pageServe
      ⟨"t", none, "https://gitlab.com/api/v4/"⟩ ⟨none, none⟩
      [("per_page", "2")]
      [("https://gitlab.com/api/v4/fake?page=2", [.num 1, .num 2])]
      "https://gitlab.com/api/v4/fake" [.num 1, .num 2] rfl
      ⟨by decide, ⟨none, by decide⟩, by decide, ⟨none, by decide⟩, trivial⟩
    simpa using h
  · have hr : renderLink [("http://a", "prev"), ("http://b", "next")] =
        "<http://a>; rel=\"prev\", <http://b>; rel=\"next\"" := by decide
    have h2 := claim5_pagination.2 [("http://a", "prev"), ("http://b", "next")]
      (by
        intro e he
        fin_cases he <;> exact ⟨by decide, by decide, by decide, by decide⟩)
    rw [hr] at h2
    rw [h2]
    decide

/-- First-occurrence deduplication, with an accumulator of already-seen
elements (the insertion-order key/value sets of the Python dicts). -/
def dedupFirstAux {α : Type} [DecidableEq α] (seen : List α) : List α → List α
  | [] => []
  | a :: t =>
    if a ∈ seen then dedupFirstAux seen t
    else a :: dedupFirstAux (seen ++ [a]) t

/-- The distinct elements of a list in first-occurrence order. -/
def dedupFirst {α : Type} [DecidableEq α] (l : List α) : List α :=
  dedupFirstAux [] l

theorem dedupFirstAux_append {α : Type} [DecidableEq α] (a : α) :
    ∀ (l seen : List α), dedupFirstAux seen (l ++ [a]) =
      dedupFirstAux seen l ++ (if a ∈ seen ++ l then [] else [a]) := by
  intro l
  induction l with
  | nil =>
    intro seen
    simp [dedupFirstAux]
  | cons b t ih =>
    intro seen
    by_cases hb : b ∈ seen
    · simp only [List.cons_append, dedupFirstAux, if_pos hb, List.append_eq]
      rw [ih seen]
      congr 1
      have hiff : (a ∈ seen ++ t) ↔ (a ∈ seen ++ b :: t) := by
        simp only [List.mem_append, List.mem_cons]
        constructor
        · rintro (h | h)
          · exact Or.inl h
          · exact Or.inr (Or.inr h)
        · rintro (h | h | h)
          · exact Or.inl h
          · exact Or.inl (h ▸ hb)
          · exact Or.inr h
      exact if_congr hiff rfl rfl
    · simp only [List.cons_append, dedupFirstAux, if_neg hb, List.append_eq]
      rw [ih (seen ++ [b])]
      have hiff : (a ∈ seen ++ [b] ++ t) ↔ (a ∈ seen ++ b :: t) := by
        simp only [List.mem_append, List.mem_cons, List.not_mem_nil, or_false]
        tauto
      congr 1
      congr 1
      exact if_congr hiff rfl rfl

theorem mem_dedupFirstAux {α : Type} [DecidableEq α] (a : α) :
    ∀ (l seen : List α), a ∈ dedupFirstAux seen l ↔ (a ∈ l ∧ a ∉ seen) := by
  intro l
  induction l with
  | nil =>
    intro seen
    simp [dedupFirstAux]
  | cons b t ih =>
    intro seen
    by_cases hb : b ∈ seen
    · simp only [dedupFirstAux, if_pos hb, ih, List.mem_cons]
      constructor
      · rintro ⟨h1, h2⟩
        exact ⟨Or.inr h1, h2⟩
      · rintro ⟨h1 | h1, h2⟩
        · exact absurd (h1 ▸ hb) h2
        · exact ⟨h1, h2⟩
    · simp only [dedupFirstAux, if_neg hb, List.mem_cons, ih]
      constructor
      · rintro (h | ⟨h1, h2⟩)
        · subst h
          exact ⟨Or.inl rfl, hb⟩
        · simp only [List.mem_append, List.mem_singleton] at h2
          push_neg at h2
          exact ⟨Or.inr h1, h2.1⟩
      · rintro ⟨h1 | h1, h2⟩
        · exact Or.inl h1
        · by_cases hab : a = b
          · exact Or.inl hab
          · refine Or.inr ⟨h1, ?_⟩
            simp only [List.mem_append, List.mem_singleton]
            push_neg
            exact ⟨h2, hab⟩

theorem mem_dedupFirst {α : Type} [DecidableEq α] (a : α) (l : List α) :
    a ∈ dedupFirst l ↔ a ∈ l := by
  simp [dedupFirst, mem_dedupFirstAux]

theorem dedupFirstAux_nodup {α : Type} [DecidableEq α] :
    ∀ (l seen : List α), (dedupFirstAux seen l).Nodup := by
  intro l
  induction l with
  | nil =>
    intro seen
    simp [dedupFirstAux]
  | cons b t ih =>
    intro seen
    by_cases hb : b ∈ seen
    · simp only [dedupFirstAux, if_pos hb]
      exact ih seen
    · simp only [dedupFirstAux, if_neg hb, List.nodup_cons]
      refine ⟨?_, ih (seen ++ [b])⟩
      intro hmem
      rw [mem_dedupFirstAux] at hmem
      exact hmem.2 (by simp)

theorem dedupFirst_nodup {α : Type} [DecidableEq α] (l : List α) :
    (dedupFirst l).Nodup := dedupFirstAux_nodup l []

theorem dedupFirst_append_single {α : Type} [DecidableEq α] (l : List α) (a : α) :
    dedupFirst (l ++ [a]) =
      dedupFirst l ++ (if a ∈ l then [] else [a]) := by
  simp [dedupFirst, dedupFirstAux_append a l []]

/-- Spec side (C4): the callbacks registered shallowly for an event
type, in registration order. -/
def shallowSpec (et : String) (ops : List AddOp) : List Nat :=
  (ops.filter (fun o => decide (o.2.1 = et) && o.2.2.isNone)).map (fun o => o.1)

/-- Spec side (C4): the deep registrations (key, value, callback) made
under an event type, in registration order. -/
def deepTriples (et : String) (ops : List AddOp) : List (String × Json × Nat) :=
  ops.filterMap (fun o =>
    match o with
    | (cb, et2, some (k, v)) => if et2 = et then some (k, v, cb) else none
    | _ => none)

/-- Spec side (C4): the callbacks registered for a given key and value,
in registration order. -/
def cbsFor (k : String) (v : Json) (tris : List (String × Json × Nat)) : List Nat :=
  (tris.filter (fun t => decide (t.1 = k) && decide (t.2.1 = v))).map (fun t => t.2.2)

/-- Spec side (C4): the values registered under a key, in order of first
registration. -/
def valsOf (k : String) (tris : List (String × Json × Nat)) : List Json :=
  dedupFirst ((tris.filter (fun t => decide (t.1 = k))).map (fun t => t.2.1))

/-- Spec side (C4): the attribute keys registered deeply, in order of
first registration. -/
def deepSpecKeys (tris : List (String × Json × Nat)) : List String :=
  dedupFirst (tris.map (fun t => t.1))

/-- Spec side (C4): the deep callbacks matched against the attributes of
the event, one registered key after the other. -/
def deepSpecOver (tris : List (String × Json × Nat))
    (attrs : List (String × Json)) : List String → List Nat
  | [] => []
  | k :: ks =>
    (match alookup attrs k with
     | some v => cbsFor k v tris
     | none => []) ++ deepSpecOver tris attrs ks

/-- Spec side (C4): all deep callbacks matched by the attributes of the
event: for each registered key that is present in the attributes, the
callbacks registered for the value the attributes carry. -/
def deepSpec (tris : List (String × Json × Nat))
    (attrs : List (String × Json)) : List Nat :=
  deepSpecOver tris attrs (deepSpecKeys tris)

/-- The value map a triple list predicts for one key. -/
def specVm (k : String) (tris : List (String × Json × Nat)) : ValMap :=
  (valsOf k tris).map (fun v => (v, cbsFor k v tris))

/-- The key map a triple list predicts. -/
def specDeepTable (tris : List (String × Json × Nat)) : KeyMap :=
  (deepSpecKeys tris).map (fun k => (k, specVm k tris))

theorem applyOp_shallow (r : Router) (cb : Nat) (et : String) :
    applyOp r (cb, et, none) =
      { r with shallow := updAt r.shallow et [] (fun cbs => cbs ++ [cb]) } := rfl

theorem applyOp_deep (r : Router) (cb : Nat) (et k : String) (v : Json) :
    applyOp r (cb, et, some (k, v)) =
      { r with deep :=
          (updAt r.deep et []
            (fun m => updAt m k [] (fun vm => updAt vm v [] (fun cbs => cbs ++ [cb])))) } :=
  rfl

theorem buildRouter_append (ops : List AddOp) (o : AddOp) :
    buildRouter (ops ++ [o]) = applyOp (buildRouter ops) o := by
  simp [buildRouter, List.foldl_append]

theorem shallowSpec_append_self (et : String) (ops : List AddOp) (cb : Nat) :
    shallowSpec et (ops ++ [(cb, et, none)]) = shallowSpec et ops ++ [cb] := by
  simp [shallowSpec, List.filter_append]

theorem shallowSpec_append_ne (et et2 : String) (ops : List AddOp) (cb : Nat)
    (h : et2 ≠ et) :
    shallowSpec et (ops ++ [(cb, et2, none)]) = shallowSpec et ops := by
  simp [shallowSpec, List.filter_append, h]

theorem shallowSpec_append_deep (et et2 : String) (ops : List AddOp) (cb : Nat)
    (kv : String × Json) :
    shallowSpec et (ops ++ [(cb, et2, some kv)]) = shallowSpec et ops := by
  simp [shallowSpec, List.filter_append]

theorem deepTriples_append_shallow (et et2 : String) (ops : List AddOp) (cb : Nat) :
    deepTriples et (ops ++ [(cb, et2, none)]) = deepTriples et ops := by
  simp [deepTriples, List.filterMap_append]

theorem deepTriples_append_self (et k : String) (v : Json) (ops : List AddOp)
    (cb : Nat) :
    deepTriples et (ops ++ [(cb, et, some (k, v))]) =
      deepTriples et ops ++ [(k, v, cb)] := by
  simp [deepTriples, List.filterMap_append]

theorem deepTriples_append_ne (et et2 k : String) (v : Json) (ops : List AddOp)
    (cb : Nat) (h : et2 ≠ et) :
    deepTriples et (ops ++ [(cb, et2, some (k, v))]) = deepTriples et ops := by
  simp [deepTriples, List.filterMap_append, h]

theorem shallow_build (ops : List AddOp) (et : String) :
    (alookup (buildRouter ops).shallow et).getD [] = shallowSpec et ops := by
  induction ops using List.reverseRecOn with
  | nil => rfl
  | append_singleton ops o ih =>
    rw [buildRouter_append]
    obtain ⟨cb, et2, kv⟩ := o
    match kv with
    | none =>
      rw [applyOp_shallow]
      by_cases h : et2 = et
      · subst h
        rw [shallowSpec_append_self]
        rw [show ({ buildRouter ops with
            shallow := updAt (buildRouter ops).shallow et2 []
              (fun cbs => cbs ++ [cb]) } : Router).shallow =
          updAt (buildRouter ops).shallow et2 [] (fun cbs => cbs ++ [cb]) from rfl]
        rw [alookup_updAt_self]
        simp [ih]
      · rw [shallowSpec_append_ne _ _ _ _ h]
        rw [show ({ buildRouter ops with
            shallow := updAt (buildRouter ops).shallow et2 []
              (fun cbs => cbs ++ [cb]) } : Router).shallow =
          updAt (buildRouter ops).shallow et2 [] (fun cbs => cbs ++ [cb]) from rfl]
        rw [alookup_updAt_ne _ _ _ _ _ h]
        exact ih
    | some (k, v) =>
      rw [applyOp_deep, shallowSpec_append_deep]
      exact ih

theorem alookup_map_self {α β : Type} [DecidableEq α] (ks : List α) (f : α → β)
    (k : α) :
    alookup (ks.map (fun x => (x, f x))) k =
      if k ∈ ks then some (f k) else none := by
  induction ks with
  | nil => rfl
  | cons a t ih =>
    by_cases h : a = k
    · subst h
      simp [alookup]
    · simp [alookup, h, ih, Ne.symm h]

theorem updAt_map_mem {α β : Type} [DecidableEq α] (ks : List α) (f : α → β)
    (k : α) (d : β) (g : β → β) (hk : k ∈ ks) (hnd : ks.Nodup) :
    updAt (ks.map (fun x => (x, f x))) k d g =
      ks.map (fun x => (x, if x = k then g (f x) else f x)) := by
  induction ks with
  | nil => cases hk
  | cons a t ih =>
    rw [List.map_cons, List.map_cons]
    by_cases h : a = k
    · subst h
      rw [updAt, if_pos rfl, if_pos rfl]
      congr 1
      have ha : a ∉ t := (List.nodup_cons.mp hnd).1
      refine (List.map_eq_map_iff.mpr ?_).symm
      intro x hx
      rw [if_neg (show ¬x = a from fun e => ha (e ▸ hx))]
    · rw [updAt, if_neg h, if_neg h]
      have hk2 : k ∈ t := by
        rcases List.mem_cons.mp hk with h1 | h1
        · exact absurd h1.symm h
        · exact h1
      congr 1
      exact ih hk2 (List.nodup_cons.mp hnd).2

theorem updAt_map_not_mem {α β : Type} [DecidableEq α] (ks : List α) (f : α → β)
    (k : α) (d : β) (g : β → β) (hk : k ∉ ks) :
    updAt (ks.map (fun x => (x, f x))) k d g =
      ks.map (fun x => (x, f x)) ++ [(k, g d)] := by
  induction ks with
  | nil => rfl
  | cons a t ih =>
    have h : a ≠ k := fun e => hk (e ▸ List.mem_cons_self a t)
    rw [List.map_cons, updAt, if_neg h, List.cons_append]
    congr 1
    exact ih (fun m => hk (List.mem_cons_of_mem a m))

theorem filter_key_nil (tris : List (String × Json × Nat)) (k : String)
    (h : k ∉ tris.map (fun t => t.1)) :
    tris.filter (fun t => decide (t.1 = k)) = [] := by
  rw [List.filter_eq_nil_iff]
  intro t ht
  simp only [decide_eq_true_eq]
  intro e
  exact h (e ▸ List.mem_map_of_mem (fun t => t.1) ht)

theorem cbsFor_nil (k : String) (v : Json) (tris : List (String × Json × Nat))
    (h : v ∉ (tris.filter (fun t => decide (t.1 = k))).map (fun t => t.2.1)) :
    cbsFor k v tris = [] := by
  rw [cbsFor, List.map_eq_nil_iff, List.filter_eq_nil_iff]
  intro t ht hb
  rw [Bool.and_eq_true, decide_eq_true_eq, decide_eq_true_eq] at hb
  exact h (hb.2 ▸ List.mem_map_of_mem (fun t => t.2.1)
    (List.mem_filter.mpr ⟨ht, by simp [hb.1]⟩))

theorem cbsFor_append (x k : String) (v1 v : Json)
    (tris : List (String × Json × Nat)) (cb : Nat) :
    cbsFor x v1 (tris ++ [(k, v, cb)]) =
      cbsFor x v1 tris ++ (if k = x ∧ v = v1 then [cb] else []) := by
  by_cases h : k = x ∧ v = v1
  · obtain ⟨h1, h2⟩ := h
    subst h1; subst h2
    simp [cbsFor, List.filter_append]
  · rw [if_neg h, List.append_nil]
    rw [cbsFor, cbsFor, List.filter_append]
    have hf : List.filter (fun t => decide (t.1 = x) && decide (t.2.1 = v1))
        [(k, v, cb)] = [] := by
      rw [List.filter_eq_nil_iff]
      intro t ht
      rw [List.mem_singleton] at ht
      subst ht
      rw [Bool.and_eq_true, decide_eq_true_eq, decide_eq_true_eq]
      exact h
    rw [hf, List.append_nil]

theorem valsOf_append_self (k : String) (v : Json)
    (tris : List (String × Json × Nat)) (cb : Nat) :
    valsOf k (tris ++ [(k, v, cb)]) =
      valsOf k tris ++
        (if v ∈ (tris.filter (fun t => decide (t.1 = k))).map (fun t => t.2.1)
         then [] else [v]) := by
  rw [valsOf, List.filter_append]
  rw [show List.filter (fun t => decide (t.1 = k)) [(k, v, cb)] = [(k, v, cb)] by simp]
  rw [List.map_append]
  exact dedupFirst_append_single _ v

theorem valsOf_append_ne (k x : String) (v : Json)
    (tris : List (String × Json × Nat)) (cb : Nat) (h : k ≠ x) :
    valsOf x (tris ++ [(k, v, cb)]) = valsOf x tris := by
  rw [valsOf, valsOf, List.filter_append]
  rw [show List.filter (fun t => decide (t.1 = x)) [(k, v, cb)] = [] by simp [h]]
  rw [List.append_nil]

theorem deepSpecKeys_append (tris : List (String × Json × Nat)) (k : String)
    (v : Json) (cb : Nat) :
    deepSpecKeys (tris ++ [(k, v, cb)]) =
      deepSpecKeys tris ++
        (if k ∈ tris.map (fun t => t.1) then [] else [k]) := by
  rw [deepSpecKeys, List.map_append]
  exact dedupFirst_append_single _ k

theorem specVm_append_ne (x k : String) (v : Json)
    (tris : List (String × Json × Nat)) (cb : Nat) (h : k ≠ x) :
    specVm x (tris ++ [(k, v, cb)]) = specVm x tris := by
  rw [specVm, specVm, valsOf_append_ne _ _ _ _ _ h]
  refine List.map_eq_map_iff.mpr ?_
  intro v1 hv1
  rw [cbsFor_append, if_neg (show ¬(k = x ∧ v = v1) from fun hc => h hc.1),
    List.append_nil]

theorem specVm_append_self (k : String) (v : Json)
    (tris : List (String × Json × Nat)) (cb : Nat) :
    specVm k (tris ++ [(k, v, cb)]) =
      updAt (specVm k tris) v [] (fun cbs => cbs ++ [cb]) := by
  by_cases hv : v ∈ (tris.filter (fun t => decide (t.1 = k))).map (fun t => t.2.1)
  · have hvm : v ∈ valsOf k tris := (mem_dedupFirst v _).mpr hv
    rw [specVm, valsOf_append_self, if_pos hv, List.append_nil]
    rw [specVm, updAt_map_mem _ _ _ _ _ hvm (dedupFirst_nodup _)]
    refine List.map_eq_map_iff.mpr ?_
    intro v1 hv1
    by_cases h1 : v1 = v
    · subst h1
      rw [if_pos rfl, cbsFor_append, if_pos ⟨rfl, rfl⟩]
    · rw [if_neg h1, cbsFor_append,
        if_neg (show ¬(k = k ∧ v = v1) from fun hc => h1 hc.2.symm),
        List.append_nil]
  · have hvm : v ∉ valsOf k tris := fun m => hv ((mem_dedupFirst v _).mp m)
    rw [specVm, valsOf_append_self, if_neg hv, List.map_append]
    rw [specVm, updAt_map_not_mem _ _ _ _ _ hvm]
    congr 1
    · refine List.map_eq_map_iff.mpr ?_
      intro v1 hv1
      rw [cbsFor_append,
        if_neg (show ¬(k = k ∧ v = v1) from
          fun hc => hvm (by rw [hc.2]; exact hv1)),
        List.append_nil]
    · rw [List.map_cons, List.map_nil]
      rw [cbsFor_append, if_pos ⟨rfl, rfl⟩, cbsFor_nil _ _ _ hv, List.nil_append]

theorem specDeepTable_append (k : String) (v : Json)
    (tris : List (String × Json × Nat)) (cb : Nat) :
    specDeepTable (tris ++ [(k, v, cb)]) =
      updAt (specDeepTable tris) k []
        (fun vm => updAt vm v [] (fun cbs => cbs ++ [cb])) := by
  by_cases hk : k ∈ tris.map (fun t => t.1)
  · have hkm : k ∈ deepSpecKeys tris := (mem_dedupFirst _ _).mpr hk
    rw [specDeepTable, deepSpecKeys_append, if_pos hk, List.append_nil]
    rw [specDeepTable, updAt_map_mem _ _ _ _ _ hkm (dedupFirst_nodup _)]
    refine List.map_eq_map_iff.mpr ?_
    intro x hx
    by_cases h1 : x = k
    · subst h1
      rw [if_pos rfl, specVm_append_self]
    · rw [if_neg h1, specVm_append_ne _ _ _ _ _ (fun e => h1 e.symm)]
  · have hkm : k ∉ deepSpecKeys tris := fun m => hk ((mem_dedupFirst _ _).mp m)
    rw [specDeepTable, deepSpecKeys_append, if_neg hk, List.map_append]
    rw [specDeepTable, updAt_map_not_mem _ _ _ _ _ hkm]
    congr 1
    · refine List.map_eq_map_iff.mpr ?_
      intro x hx
      have h1 : x ≠ k := fun e => hkm (e ▸ hx)
      rw [specVm_append_ne _ _ _ _ _ (fun e => h1 e.symm)]
    · rw [List.map_cons, List.map_nil]
      have hvm : specVm k (tris ++ [(k, v, cb)]) = [(v, [cb])] := by
        rw [specVm, valsOf_append_self, if_neg ?hmem]
        case hmem =>
          rw [filter_key_nil tris k hk]
          exact List.not_mem_nil v
        rw [show valsOf k tris = [] by
          rw [valsOf, filter_key_nil tris k hk]; rfl]
        rw [List.nil_append, List.map_cons, List.map_nil]
        rw [cbsFor_append, if_pos ⟨rfl, rfl⟩]
        rw [cbsFor_nil k v tris ?hnil, List.nil_append]
        case hnil =>
          rw [filter_key_nil tris k hk]
          exact List.not_mem_nil v
      rw [hvm]
      rfl

theorem deep_build (ops : List AddOp) (et : String) :
    (alookup (buildRouter ops).deep et).getD [] =
      specDeepTable (deepTriples et ops) := by
  induction ops using List.reverseRecOn with
  | nil => rfl
  | append_singleton ops o ih =>
    rw [buildRouter_append]
    obtain ⟨cb, et2, kv⟩ := o
    match kv with
    | none =>
      rw [applyOp_shallow, deepTriples_append_shallow]
      exact ih
    | some (k, v) =>
      rw [applyOp_deep]
      rw [show ({ buildRouter ops with deep :=
          (updAt (buildRouter ops).deep et2 []
            (fun m => updAt m k []
              (fun vm => updAt vm v [] (fun cbs => cbs ++ [cb])))) } : Router).deep =
        updAt (buildRouter ops).deep et2 []
          (fun m => updAt m k []
            (fun vm => updAt vm v [] (fun cbs => cbs ++ [cb]))) from rfl]
      by_cases h : et2 = et
      · subst h
        rw [deepTriples_append_self, alookup_updAt_self, Option.getD_some, ih,
          specDeepTable_append]
      · rw [deepTriples_append_ne _ _ _ _ _ _ h, alookup_updAt_ne _ _ _ _ _ h]
        exact ih

theorem collectDeep_spec (e : Event) (attrs : List (String × Json))
    (he : e.object_attributes = .ok (.obj attrs))
    (tris : List (String × Json × Nat)) (ks : List String) :
    collectDeep e (ks.map (fun k => (k, specVm k tris))) =
      .ok (deepSpecOver tris attrs ks) := by
  induction ks with
  | nil => rfl
  | cons k t ih =>
    rw [List.map_cons]
    rw [show collectDeep e ((k, specVm k tris) :: t.map (fun x => (x, specVm x tris))) =
      (match collectOne e k (specVm k tris) with
       | .error er => .error er
       | .ok here =>
         match collectDeep e (t.map (fun x => (x, specVm x tris))) with
         | .error er => .error er
         | .ok tail => .ok (here ++ tail)) from rfl]
    rw [ih]
    have hone : collectOne e k (specVm k tris) =
        .ok (match alookup attrs k with
             | some v => cbsFor k v tris
             | none => []) := by
      simp only [collectOne, he]
      match halk : alookup attrs k with
      | none =>
        have hc : pyContains (Json.obj attrs) k = Except.ok false := by
          simp only [pyContains, halk, Option.isSome_none]
        simp only [hc]
        rfl
      | some v =>
        have hc : pyContains (Json.obj attrs) k = Except.ok true := by
          simp only [pyContains, halk, Option.isSome_some]
        have hg : pyGetItemStr (Json.obj attrs) k = Except.ok v := by
          simp only [pyGetItemStr, halk]
        simp only [hc, hg, if_true]
        rw [specVm, alookup_map_self (valsOf k tris) (fun w => (cbsFor k w tris)) v]
        by_cases hv : v ∈ valsOf k tris
        · rw [if_pos hv, Option.getD_some]
        · rw [if_neg hv, Option.getD_none]
          rw [cbsFor_nil k v tris (fun m => hv ((mem_dedupFirst v _).mpr m))]
    rw [hone]
    rw [deepSpecOver]

theorem shallowSpec_nil_of_absent (et : String) (ops : List AddOp)
    (h : ∀ o ∈ ops, o.2.1 ≠ et) : shallowSpec et ops = [] := by
  rw [shallowSpec, List.map_eq_nil_iff, List.filter_eq_nil_iff]
  intro o ho hb
  rw [Bool.and_eq_true, decide_eq_true_eq] at hb
  exact h o ho hb.1

theorem deepTriples_nil_of_absent (et : String) (ops : List AddOp)
    (h : ∀ o ∈ ops, o.2.1 ≠ et) : deepTriples et ops = [] := by
  rw [deepTriples, List.filterMap_eq_nil_iff]
  intro o ho
  match o with
  | (cb, et2, none) => rfl
  | (cb, et2, some (k, v)) =>
    show (if et2 = et then some (k, v, cb) else none) = none
    rw [if_neg (show ¬et2 = et from h (cb, et2, some (k, v)) ho)]

theorem dispatch_eq (r : Router) (e : Event) (args : List Json) :
    Router.dispatch r e args =
      (match (match alookup r.deep e.event with
              | none => (Except.ok [] : Except PyErr (List Nat))
              | some details => collectDeep e details) with
       | .error er => .error er
       | .ok deepCbs =>
         .ok (((alookup r.shallow e.event).getD [] ++ deepCbs).map
           (fun c => (c, e, args)))) := rfl

/-- C4: dispatching an event against a router built by a sequence of
`add` calls performs exactly these calls, in this order, each passing
the event and the extra arguments unmodified: the callbacks registered
shallowly for the event type of the event, in registration order,
followed by the deep callbacks collected key by key — for each
attribute key registered deeply under that event type (in order of
first registration) that is present in the object attributes of the
event, the callbacks registered for the value those attributes carry,
in registration order.  An event type with no registrations performs no
call and raises nothing. -/
theorem claim4_router_dispatch (ops : List AddOp) (e : Event)
    (args : List Json) :
    (∀ attrs : List (String × Json),
      e.object_attributes = .ok (.obj attrs) →
      Router.dispatch (buildRouter ops) e args =
        .ok ((shallowSpec e.event ops ++
          deepSpec (deepTriples e.event ops) attrs).map
            (fun c => (c, e, args)))) ∧
    ((∀ o ∈ ops, o.2.1 ≠ e.event) →
      Router.dispatch (buildRouter ops) e args = .ok []) := by
  constructor
  · intro attrs he
    rw [dispatch_eq]
    cases hdl : alookup (buildRouter ops).deep e.event with
    | none =>
      have hdp := deep_build ops e.event
      rw [hdl, Option.getD_none] at hdp
      have hs := hdp.symm
      rw [specDeepTable, List.map_eq_nil_iff] at hs
      show Except.ok (((alookup (buildRouter ops).shallow e.event).getD [] ++
          ([] : List Nat)).map (fun c => (c, e, args))) =
        Except.ok ((shallowSpec e.event ops ++
          deepSpec (deepTriples e.event ops) attrs).map (fun c => (c, e, args)))
      rw [shallow_build, deepSpec, hs]
      rfl
    | some m =>
      have hdp := deep_build ops e.event
      rw [hdl, Option.getD_some] at hdp
      subst hdp
      rw [show specDeepTable (deepTriples e.event ops) =
        (deepSpecKeys (deepTriples e.event ops)).map
          (fun k => (k, specVm k (deepTriples e.event ops))) from rfl]
      show (match collectDeep e ((deepSpecKeys (deepTriples e.event ops)).map
          (fun k => (k, specVm k (deepTriples e.event ops)))) with
        | Except.error er => Except.error er
        | Except.ok deepCbs =>
          Except.ok (((alookup (buildRouter ops).shallow e.event).getD [] ++
            deepCbs).map (fun c => (c, e, args)))) = _
      rw [collectDeep_spec e attrs he (deepTriples e.event ops)
        (deepSpecKeys (deepTriples e.event ops))]
      rw [shallow_build]
      rfl
  · intro h
    rw [dispatch_eq, shallow_build, shallowSpec_nil_of_absent e.event ops h]
    cases hdl : alookup (buildRouter ops).deep e.event with
    | none => rfl
    | some m =>
      have hdp := deep_build ops e.event
      rw [hdl, Option.getD_some, deepTriples_nil_of_absent e.event ops h] at hdp
      rw [show specDeepTable [] = ([] : KeyMap) from rfl] at hdp
      subst hdp
      rfl

/-- The `add` calls of the dispatch-order example: one shallow and five
deep registrations under one event type, plus one under another. -/
def claim4Ops : List AddOp :=
  [(1, "something", none),
   (2, "something", some ("action", Json.str "new")),
   (3, "something", some ("action", Json.str "new")),
   (4, "something", some ("count", Json.num 42)),
   (5, "something else", none),
   (6, "something", some ("never", Json.str "called")),
   (7, "something", some ("count", Json.num (-13)))]

/-- An event whose attributes match the `action`/`count` registrations. -/
def claim4Event : Event :=
  ⟨Json.obj [("object_attributes", Json.obj
      [("action", Json.str "new"), ("count", Json.num 42),
        ("ignored", Json.bool true)])],
    "something", some "1234"⟩

/-- An event whose event type carries no registration at all. -/
def claim4Event2 : Event :=
  ⟨Json.obj [("data", Json.num 42)], "nothing", some "1234"⟩

theorem claim4_witness :
    Router.dispatch (buildRouter claim4Ops) claim4Event [Json.num 9] =
      Except.ok [(1, claim4Event, [Json.num 9]), (2, claim4Event, [Json.num 9]),
        (3, claim4Event, [Json.num 9]), (4, claim4Event, [Json.num 9])] ∧
    Router.dispatch (buildRouter claim4Ops) claim4Event2 [] = Except.ok [] := by
  constructor
  · have h := (claim4_router_dispatch claim4Ops claim4Event [Json.num 9]).1
      [("action", Json.str "new"), ("count", Json.num 42),
        ("ignored", Json.bool true)] rfl
    rw [h]
    rfl
  · exact (claim4_router_dispatch claim4Ops claim4Event2 []).2 (by decide)

theorem strData_append (s t : String) : (s ++ t).data = s.data ++ t.data := rfl

theorem strExt {s t : String} (h : s.data = t.data) : s = t := by
  cases s
  cases t
  exact congrArg String.mk h

theorem takeWhile_append_all {p : Char → Bool} {l1 : List Char} (l2 : List Char)
    (h : ∀ c ∈ l1, p c = true) :
    List.takeWhile p (l1 ++ l2) = l1 ++ List.takeWhile p l2 := by
  induction l1 with
  | nil => rfl
  | cons a t ih =>
    have ha : p a = true := h a (by simp)
    simp only [List.cons_append, List.takeWhile, ha]
    exact congrArg (List.cons a) (ih (fun c hc => h c (by simp [hc])))

theorem takeWhile_all {p : Char → Bool} {l : List Char}
    (h : ∀ c ∈ l, p c = true) : List.takeWhile p l = l := by
  have h2 := @takeWhile_append_all p l [] h
  simpa using h2

theorem contains_false_iff (l : List Char) (c : Char) :
    l.contains c = false ↔ ∀ x ∈ l, x ≠ c := by
  induction l with
  | nil => simp
  | cons a t ih =>
    constructor
    · intro h x hx
      simp only [List.contains_cons, Bool.or_eq_false_iff, beq_eq_false_iff_ne,
        ne_eq] at h
      rcases List.mem_cons.mp hx with h1 | h1
      · subst h1
        exact fun he => h.1 he.symm
      · exact (ih.mp h.2) x h1
    · intro h
      simp only [List.contains_cons, Bool.or_eq_false_iff, beq_eq_false_iff_ne,
        ne_eq]
      exact ⟨fun he => h a (by simp) he.symm,
        ih.mpr (fun x hx => h x (by simp [hx]))⟩

theorem contains_append (l1 l2 : List Char) (c : Char) :
    (l1 ++ l2).contains c = (l1.contains c || l2.contains c) := by
  induction l1 with
  | nil => simp
  | cons a t ih =>
    simp only [List.cons_append, List.contains_cons, ih, Bool.or_assoc]

theorem splitAtFirst_not_contains (c : Char) (l : List Char)
    (h : l.contains c = false) : splitAtFirst c l = (l, none) := by
  have htw : List.takeWhile (fun x => x ≠ c) l = l :=
    takeWhile_all (fun x hx => by simp [(contains_false_iff l c).mp h x hx])
  simp only [splitAtFirst, htw, List.drop_length]

theorem splitAtFirst_found (c : Char) (l1 l2 : List Char)
    (h : ∀ x ∈ l1, x ≠ c) :
    splitAtFirst c (l1 ++ c :: l2) = (l1, some l2) := by
  have htw : List.takeWhile (fun x => x ≠ c) (l1 ++ c :: l2) = l1 :=
    takeWhile_append_stop c l2 (fun x hx => by simp [h x hx]) (by simp)
  simp only [splitAtFirst, htw, List.drop_left]

theorem afterFirst_not_contains (c : Char) (l : List Char)
    (h : l.contains c = false) : afterFirst c l = [] := by
  simp only [afterFirst, splitAtFirst_not_contains c l h]

theorem afterFirst_found (c : Char) (l1 l2 : List Char)
    (h : ∀ x ∈ l1, x ≠ c) : afterFirst c (l1 ++ c :: l2) = l2 := by
  simp only [afterFirst, splitAtFirst_found c l1 l2 h]

theorem splitOnChar_no (c : Char) (l : List Char) (h : ∀ x ∈ l, x ≠ c) :
    splitOnChar c l = [l] := by
  induction l with
  | nil => rfl
  | cons a t ih =>
    have ha : a ≠ c := h a (by simp)
    simp only [splitOnChar, if_neg ha, ih (fun x hx => h x (by simp [hx]))]

theorem splitOnChar_sep (c : Char) (l1 l2 : List Char) (h : ∀ x ∈ l1, x ≠ c) :
    splitOnChar c (l1 ++ c :: l2) = l1 :: splitOnChar c l2 := by
  induction l1 with
  | nil =>
    simp only [List.nil_append, splitOnChar, eq_self_iff_true, if_true]
  | cons a t ih =>
    have ha : a ≠ c := h a (by simp)
    simp only [List.cons_append, splitOnChar, if_neg ha, List.append_eq,
      ih (fun x hx => h x (by simp [hx]))]

theorem splitOnChar_ne_nil (c : Char) (l : List Char) : splitOnChar c l ≠ [] := by
  cases l with
  | nil => simp [splitOnChar]
  | cons a t =>
    simp only [splitOnChar]
    by_cases ha : a = c
    · simp [ha]
    · rw [if_neg ha]
      match h : splitOnChar c t with
      | h1 :: r => simp
      | [] => simp

theorem joinSlash_cons_cons (a b : List Char) (t : List (List Char)) :
    joinSlash (a :: b :: t) = a ++ '/' :: joinSlash (b :: t) := rfl

theorem joinSlash_splitOnChar (l : List Char) :
    joinSlash (splitOnChar '/' l) = l := by
  induction l with
  | nil => rfl
  | cons a t ih =>
    by_cases ha : a = '/'
    · subst ha
      simp only [splitOnChar, eq_self_iff_true, if_true]
      rcases hs : splitOnChar '/' t with _ | ⟨h1, r⟩
      · exact absurd hs (splitOnChar_ne_nil '/' t)
      · rw [joinSlash_cons_cons]
        rw [hs] at ih
        rw [ih]
        rfl
    · simp only [splitOnChar, if_neg ha]
      rcases hs : splitOnChar '/' t with _ | ⟨h1, r⟩
      · exact absurd hs (splitOnChar_ne_nil '/' t)
      · rw [hs] at ih
        cases r with
        | nil =>
          show joinSlash [a :: h1] = a :: t
          show a :: h1 = a :: t
          rw [show joinSlash [h1] = h1 from rfl] at ih
          rw [ih]
        | cons r1 rr =>
          rw [joinSlash_cons_cons]
          rw [joinSlash_cons_cons] at ih
          show a :: (h1 ++ '/' :: joinSlash (r1 :: rr)) = a :: t
          rw [ih]

theorem filterInner_all (l : List (List Char))
    (h : ∀ x ∈ l.dropLast, x.isEmpty = false) : filterInner l = l := by
  induction l with
  | nil => rfl
  | cons a t ih =>
    cases t with
    | nil => rfl
    | cons b t2 =>
      have ha : a.isEmpty = false := h a (by simp)
      show (if a.isEmpty then filterInner (b :: t2) else a :: filterInner (b :: t2)) = _
      rw [ha, if_neg (by simp)]
      rw [ih (fun x hx => h x (by simp at hx ⊢; exact Or.inr hx))]

theorem resolveSegs_no_dots (l : List (List Char))
    (h : ∀ x ∈ l, x ≠ ['.'] ∧ x ≠ ['.', '.']) : resolveSegs l = l := by
  have haux : ∀ (acc : List (List Char)),
      List.foldl (fun acc seg =>
        if seg = ['.', '.'] then acc.dropLast
        else if seg = ['.'] then acc
        else acc ++ [seg]) acc l = acc ++ l := by
    induction l with
    | nil => intro acc; simp
    | cons a t ih =>
      intro acc
      have ha := h a (by simp)
      simp only [List.foldl_cons, if_neg ha.2, if_neg ha.1]
      rw [ih (fun x hx => h x (by simp [hx])) (acc ++ [a])]
      simp
  have h2 := haux []
  simpa [resolveSegs] using h2

/-- Characters the C9 statement allows in an authority: anything but
the authority delimiters and the IPv6 brackets. -/
def hostChar (c : Char) : Bool :=
  c ≠ '/' && c ≠ '?' && c ≠ '#' && c ≠ '[' && c ≠ ']'

/-- An API version string within the scope of the C9 statement:
non-empty, no path, query, fragment or scheme delimiters, not a dot
segment. -/
def versionOk (v : String) : Bool :=
  !v.data.isEmpty && !v.data.contains '/' && !v.data.contains '?' &&
    !v.data.contains '#' && !v.data.contains ':' && !v.data.contains ';' &&
    !(v.data == ['.']) && !(v.data == ['.', '.'])

/-- When a `?` occurs at all, something follows it (`urlunsplit` drops
a dangling `?`). -/
def queryTailOk (l : List Char) : Bool :=
  !(l.dropWhile (fun c => c ≠ '?') == ['?'])

/-- A relative path within the scope of the C9 statement: non-empty
before any query, no leading slash, no scheme colon, no fragment, no
`;`-parameters, no empty or dot segments (a trailing slash is fine),
and no dangling `?`. -/
def relPathOk (path : String) : Bool :=
  let p0 := path.data.takeWhile (fun c => c ≠ '?')
  !p0.isEmpty && !(p0.head? == some '/') &&
    !path.data.contains ':' && !path.data.contains '#' &&
    !p0.contains ';' &&
    (splitOnChar '/' p0).dropLast.all (fun s => !s.isEmpty) &&
    (splitOnChar '/' p0).all (fun s => !(s == ['.']) && !(s == ['.', '.'])) &&
    queryTailOk path.data

theorem strMk_data (s : String) : String.mk s.data = s := rfl

theorem contains_decomp (c : Char) (l : List Char) (h : l.contains c = true) :
    ∃ l1 l2, l = l1 ++ c :: l2 ∧ l1.contains c = false := by
  induction l with
  | nil => simp at h
  | cons a t ih =>
    by_cases ha : a = c
    · exact ⟨[], t, by rw [ha]; rfl, rfl⟩
    · have h2 : t.contains c = true := by
        simp only [List.contains_cons, Bool.or_eq_true, beq_iff_eq] at h
        rcases h with h | h
        · exact absurd h.symm ha
        · exact h
      obtain ⟨l1, l2, he, hc1⟩ := ih h2
      refine ⟨a :: l1, l2, by rw [he]; rfl, ?_⟩
      simp only [List.contains_cons, Bool.or_eq_false_iff, beq_eq_false_iff_ne,
        ne_eq]
      exact ⟨fun he => ha he.symm, hc1⟩

theorem pySplitParams_no_semi (p : List Char)
    (hsemi : ((p.reverse.takeWhile (fun c => c ≠ '/')).reverse).contains ';' =
      false) :
    pySplitParams p = (p, []) := by
  by_cases hsl : p.contains '/' = true
  · simp only [pySplitParams, hsl, if_true, hsemi, Bool.false_eq_true, if_false]
  · have hslf : p.contains '/' = false := by
      cases hc : p.contains '/' with
      | false => rfl
      | true => exact absurd hc hsl
    have hns : p.contains ';' = false := by
      have hall : ∀ x ∈ p.reverse, (fun c => decide (c ≠ '/')) x = true := by
        intro x hx
        simp [(contains_false_iff p '/').mp hslf x (List.mem_reverse.mp hx)]
      have htw : p.reverse.takeWhile (fun c => c ≠ '/') = p.reverse :=
        takeWhile_all hall
      rw [htw, List.reverse_reverse] at hsemi
      exact hsemi
    simp only [pySplitParams, hslf, Bool.false_eq_true, if_false, hns]

theorem pySchemeSplit_http (rest : List Char) :
    pySchemeSplit ("http".data ++ ':' :: rest) = some ("http".data, rest) := by
  have htw : List.takeWhile (fun x => x ≠ ':') ("http".data ++ ':' :: rest) =
      "http".data :=
    takeWhile_append_stop ':' rest (by intro c hc; fin_cases hc <;> decide)
      (by decide)
  simp only [pySchemeSplit, htw, List.drop_left]
  simp

theorem pySchemeSplit_https (rest : List Char) :
    pySchemeSplit ("https".data ++ ':' :: '/' :: rest) =
      some ("https".data, '/' :: rest) := by
  have htw : List.takeWhile (fun x => x ≠ ':')
      ("https".data ++ ':' :: '/' :: rest) = "https".data :=
    takeWhile_append_stop ':' ('/' :: rest)
      (by intro c hc; fin_cases hc <;> decide) (by decide)
  have hmap : List.map Char.toLower "https".data = "https".data := by decide
  simp only [pySchemeSplit, htw, List.drop_left]
  simp [hmap, schemeChar]

theorem pySchemeSplit_none (l : List Char) (h : l.contains ':' = false) :
    pySchemeSplit l = none := by
  have htw : List.takeWhile (fun x => x ≠ ':') l = l :=
    takeWhile_all (fun x hx => by simp [(contains_false_iff l ':').mp h x hx])
  simp only [pySchemeSplit, htw, List.drop_length]

theorem pySplitNetloc_shape (host : String) (tail : List Char)
    (hchar : host.data.all hostChar = true)
    (ht : tail.head? = none ∨ tail.head? = some '/') :
    pySplitNetloc (host.data ++ tail) = (host.data, tail) := by
  have hall : ∀ c ∈ host.data,
      (fun c => c ≠ '/' && c ≠ '?' && c ≠ '#') c = true := by
    intro c hc
    have h2 := (List.all_eq_true.mp hchar) c hc
    simp only [hostChar, Bool.and_eq_true, decide_eq_true_eq] at h2
    simp [h2.1.1.1.1, h2.1.1.1.2, h2.1.1.2]
  cases ht with
  | inl h0 =>
    have htail : tail = [] := by
      cases tail with
      | nil => rfl
      | cons a t => simp at h0
    subst htail
    have htw : List.takeWhile (fun c => c ≠ '/' && c ≠ '?' && c ≠ '#')
        (host.data ++ []) = host.data := by
      rw [List.append_nil]
      exact takeWhile_all hall
    simp only [pySplitNetloc, htw]
    rw [List.append_nil, List.drop_length]
  | inr h0 =>
    obtain ⟨t, htail⟩ : ∃ t, tail = '/' :: t := by
      cases tail with
      | nil => simp at h0
      | cons a t =>
        simp only [List.head?, Option.some.injEq] at h0
        exact ⟨t, by rw [h0]⟩
    subst htail
    have htw : List.takeWhile (fun c => c ≠ '/' && c ≠ '?' && c ≠ '#')
        (host.data ++ '/' :: t) = host.data :=
      takeWhile_append_stop '/' t hall (by decide)
    simp only [pySplitNetloc, htw, List.drop_left]

theorem pyUrlparse_prefix (sch host : String) (tail : List Char)
    (hs : sch = "http" ∨ sch = "https") :
    pySchemeSplit (sch ++ "://" ++ host ++ String.mk tail).data =
      some (sch.data, '/' :: '/' :: (host.data ++ tail)) := by
  have hsep : ("://" : String).data = [':', '/', '/'] := rfl
  rcases hs with h | h <;> subst h
  · have hdata : ("http" ++ "://" ++ host ++ String.mk tail).data =
        "http".data ++ ':' :: ('/' :: '/' :: (host.data ++ tail)) := by
      show (("http".data ++ "://".data) ++ host.data) ++ tail = _
      simp [hsep, List.append_assoc]
    rw [hdata]
    exact pySchemeSplit_http _
  · have hdata : ("https" ++ "://" ++ host ++ String.mk tail).data =
        "https".data ++ ':' :: '/' :: ('/' :: (host.data ++ tail)) := by
      show (("https".data ++ "://".data) ++ host.data) ++ tail = _
      simp [hsep, List.append_assoc]
    rw [hdata]
    exact pySchemeSplit_https _

theorem pyUrlparse_shape (dflt sch host : String) (tail : List Char)
    (hs : sch = "http" ∨ sch = "https")
    (hchar : host.data.all hostChar = true)
    (ht : tail.head? = none ∨ tail.head? = some '/')
    (hfrag : tail.contains '#' = false)
    (hsemi : (((tail.takeWhile (fun c => c ≠ '?')).reverse.takeWhile
        (fun c => c ≠ '/')).reverse).contains ';' = false) :
    pyUrlparse dflt (sch ++ "://" ++ host ++ String.mk tail) =
      ⟨sch, host, String.mk (tail.takeWhile (fun c => c ≠ '?')), "",
        String.mk (afterFirst '?' tail), ""⟩ := by
  have hpre := pyUrlparse_prefix sch host tail hs
  have hnet := pySplitNetloc_shape host tail hchar ht
  have hpp : isPrefixList "//".data ('/' :: '/' :: (host.data ++ tail)) = true := by
    simp [isPrefixList]
  by_cases hq : tail.contains '?' = true
  · obtain ⟨l1, l2, hdec, hl1⟩ := contains_decomp '?' tail hq
    subst hdec
    have hl1x : ∀ x ∈ l1, x ≠ '?' := (contains_false_iff l1 '?').mp hl1
    have htw : (l1 ++ '?' :: l2).takeWhile (fun c => c ≠ '?') = l1 :=
      takeWhile_append_stop '?' l2 (fun x hx => by simp [hl1x x hx]) (by decide)
    have hsp : splitAtFirst '?' (l1 ++ '?' :: l2) = (l1, some l2) :=
      splitAtFirst_found '?' l1 l2 hl1x
    have haf : afterFirst '?' (l1 ++ '?' :: l2) = l2 :=
      afterFirst_found '?' l1 l2 hl1x
    have hfr : splitAtFirst '#' (l1 ++ '?' :: l2) = (l1 ++ '?' :: l2, none) :=
      splitAtFirst_not_contains '#' _ hfrag
    have hparams : pySplitParams l1 = (l1, []) := by
      apply pySplitParams_no_semi
      rw [htw] at hsemi
      exact hsemi
    rw [htw] at hsemi
    simp only [pyUrlparse, hpre, hpp, if_true, List.drop_succ_cons,
      List.drop_zero, hnet, hfr, hsp]
    by_cases hc : (uses_params.contains (String.mk sch.data) &&
        l1.contains ';') = true
    · simp only [hc, if_true, hparams]
      rw [htw]
      simp [strMk_data, haf]
    · simp only [Bool.not_eq_true] at hc
      simp only [hc, Bool.false_eq_true, if_false]
      rw [htw]
      simp [strMk_data, haf]
  · have hqf : tail.contains '?' = false := by
      cases hc : tail.contains '?' with
      | false => rfl
      | true => exact absurd hc hq
    have htw : tail.takeWhile (fun c => c ≠ '?') = tail :=
      takeWhile_all (fun x hx => by
        simp [(contains_false_iff tail '?').mp hqf x hx])
    have hsp : splitAtFirst '?' tail = (tail, none) :=
      splitAtFirst_not_contains '?' tail hqf
    have haf : afterFirst '?' tail = [] :=
      afterFirst_not_contains '?' tail hqf
    have hfr : splitAtFirst '#' tail = (tail, none) :=
      splitAtFirst_not_contains '#' tail hfrag
    have hparams : pySplitParams tail = (tail, []) := by
      apply pySplitParams_no_semi
      rw [htw] at hsemi
      exact hsemi
    simp only [pyUrlparse, hpre, hpp, if_true, List.drop_succ_cons,
      List.drop_zero, hnet, hfr, hsp]
    by_cases hc : (uses_params.contains (String.mk sch.data) &&
        tail.contains ';') = true
    · simp only [hc, if_true, hparams]
      rw [htw]
      simp [strMk_data, haf]
    · simp only [Bool.not_eq_true] at hc
      simp only [hc, Bool.false_eq_true, if_false]
      rw [htw]
      simp [strMk_data, haf]

theorem pySplitParams_of_no_semi (p : List Char) (h : p.contains ';' = false) :
    pySplitParams p = (p, []) := by
  apply pySplitParams_no_semi
  rw [contains_false_iff]
  intro x hx
  have hx2 : x ∈ p.reverse.takeWhile (fun c => decide (c ≠ '/')) :=
    List.mem_reverse.mp hx
  have hx3 : x ∈ p.reverse := (List.takeWhile_sublist _).subset hx2
  exact (contains_false_iff p ';').mp h x (List.mem_reverse.mp hx3)

theorem pyUrlparse_rel (dflt path : String)
    (hcolon : path.data.contains ':' = false)
    (hfrag : path.data.contains '#' = false)
    (hpf : isPrefixList "//".data path.data = false)
    (hsemi : (path.data.takeWhile (fun c => c ≠ '?')).contains ';' = false) :
    pyUrlparse dflt path =
      ⟨dflt, "", String.mk (path.data.takeWhile (fun c => c ≠ '?')), "",
        String.mk (afterFirst '?' path.data), ""⟩ := by
  have hsch := pySchemeSplit_none path.data hcolon
  by_cases hq : path.data.contains '?' = true
  · obtain ⟨l1, l2, hdec, hl1⟩ := contains_decomp '?' path.data hq
    have hl1x : ∀ x ∈ l1, x ≠ '?' := (contains_false_iff l1 '?').mp hl1
    have htw : path.data.takeWhile (fun c => c ≠ '?') = l1 := by
      rw [hdec]
      exact takeWhile_append_stop '?' l2 (fun x hx => by simp [hl1x x hx])
        (by decide)
    have hsp : splitAtFirst '?' path.data = (l1, some l2) := by
      rw [hdec]
      exact splitAtFirst_found '?' l1 l2 hl1x
    have haf : afterFirst '?' path.data = l2 := by
      rw [hdec]
      exact afterFirst_found '?' l1 l2 hl1x
    have hfr : splitAtFirst '#' path.data = (path.data, none) :=
      splitAtFirst_not_contains '#' _ hfrag
    have hl1semi : l1.contains ';' = false := by
      rw [htw] at hsemi
      exact hsemi
    simp only [pyUrlparse, hsch, hpf, Bool.false_eq_true, if_false, hfr, hsp,
      hl1semi, Bool.and_false]
    rw [htw]
    simp [strMk_data, haf]
  · have hqf : path.data.contains '?' = false := by
      cases hc2 : path.data.contains '?' with
      | false => rfl
      | true => exact absurd hc2 hq
    have htw : path.data.takeWhile (fun c => c ≠ '?') = path.data :=
      takeWhile_all (fun x hx => by
        simp [(contains_false_iff path.data '?').mp hqf x hx])
    have hsp : splitAtFirst '?' path.data = (path.data, none) :=
      splitAtFirst_not_contains '?' path.data hqf
    have haf : afterFirst '?' path.data = [] :=
      afterFirst_not_contains '?' path.data hqf
    have hfr : splitAtFirst '#' path.data = (path.data, none) :=
      splitAtFirst_not_contains '#' path.data hfrag
    have hpsemi : path.data.contains ';' = false := by
      rw [htw] at hsemi
      exact hsemi
    simp only [pyUrlparse, hsch, hpf, Bool.false_eq_true, if_false, hfr, hsp,
      hpsemi, Bool.and_false]
    rw [htw]
    simp [strMk_data, haf]

theorem isEmpty_append_cons (l1 : List Char) (c : Char) (l2 : List Char) :
    (l1 ++ c :: l2).isEmpty = false := by
  cases l1 <;> rfl

theorem apiRef_data (version : String) :
    ("/api/" ++ version ++ "/").data =
      '/' :: ('a' :: 'p' :: 'i' :: ('/' :: (version.data ++ '/' :: []))) := by
  show ("/api/".data ++ version.data) ++ "/".data = _
  simp [List.append_assoc]

theorem pyUrlunsplit_noq (sch host q frag : String) (pd : List Char)
    (hhost : host.data.isEmpty = false)
    (hsch : sch.data.isEmpty = false)
    (hpd : pd.head? = some '/' ∨ pd = [])
    (hq : q.data.isEmpty = true)
    (hfr : frag.data.isEmpty = true) :
    pyUrlunsplit sch host (String.mk pd) q frag =
      sch ++ "://" ++ host ++ String.mk pd := by
  have hsep : ("://" : String).data = [':', '/', '/'] := rfl
  rw [pyUrlunsplit]
  rw [if_neg (by rw [hfr]; simp)]
  rw [if_neg (by rw [hq]; simp)]
  rw [if_pos (by rw [hsch]; simp)]
  rw [if_pos (by rw [hhost]; simp)]
  rw [if_neg (show ¬((!(String.mk pd).data.isEmpty &&
      (String.mk pd).data.head? != some '/') = true) by
    rcases hpd with h | h
    · simp [h]
    · subst h
      simp)]
  apply strExt
  simp [strData_append, hsep, List.append_assoc]

theorem pyUrlunsplit_q (sch host q frag : String) (pd : List Char)
    (hhost : host.data.isEmpty = false)
    (hsch : sch.data.isEmpty = false)
    (hpd : pd.head? = some '/' ∨ pd = [])
    (hq : q.data.isEmpty = false)
    (hfr : frag.data.isEmpty = true) :
    pyUrlunsplit sch host (String.mk pd) q frag =
      sch ++ "://" ++ host ++ String.mk pd ++ "?" ++ q := by
  have hsep : ("://" : String).data = [':', '/', '/'] := rfl
  rw [pyUrlunsplit]
  rw [if_neg (by rw [hfr]; simp)]
  rw [if_pos (by rw [hq]; simp)]
  rw [if_pos (by rw [hsch]; simp)]
  rw [if_pos (by rw [hhost]; simp)]
  rw [if_neg (show ¬((!(String.mk pd).data.isEmpty &&
      (String.mk pd).data.head? != some '/') = true) by
    rcases hpd with h | h
    · simp [h]
    · subst h
      simp)]
  apply strExt
  simp [strData_append, hsep, List.append_assoc]

theorem apiUrlOf_shape (bsch bhost btail version : String)
    (hbs : bsch = "http" ∨ bsch = "https")
    (hbhost : bhost.data.isEmpty = false)
    (hbchar : bhost.data.all hostChar = true)
    (hbt : btail.data.head? = none ∨ btail.data.head? = some '/')
    (hbfrag : btail.data.contains '#' = false)
    (hbsemi : (((btail.data.takeWhile (fun c => c ≠ '?')).reverse.takeWhile
        (fun c => c ≠ '/')).reverse).contains ';' = false)
    (hv : versionOk version = true) :
    apiUrlOf (bsch ++ "://" ++ bhost ++ btail) version =
      bsch ++ "://" ++ bhost ++ "/api/" ++ version ++ "/" := by
  have hsep : ("://" : String).data = [':', '/', '/'] := rfl
  simp only [versionOk, Bool.and_eq_true, Bool.not_eq_true', beq_eq_false_iff_ne,
    ne_eq] at hv
  obtain ⟨⟨⟨⟨⟨⟨⟨hvne, hvsl⟩, hvq⟩, hvh⟩, hvc⟩, hvsemi⟩, hvd1⟩, hvd2⟩ := hv
  have hvall : ∀ x ∈ version.data, x ≠ '/' :=
    (contains_false_iff version.data '/').mp hvsl
  have hvcM : ':' ∉ version.data := by simpa using hvc
  have hvhM : '#' ∉ version.data := by simpa using hvh
  have hvqM : '?' ∉ version.data := by simpa using hvq
  have hvsM : ';' ∉ version.data := by simpa using hvsemi
  have hbschne : bsch.data.isEmpty = false := by
    rcases hbs with h | h <;> subst h <;> rfl
  have husesrel : uses_relative.contains bsch = true := by
    rcases hbs with h | h <;> subst h <;> decide
  have husesnet : uses_netloc.contains bsch = true := by
    rcases hbs with h | h <;> subst h <;> decide
  have hbdata : (bsch ++ "://" ++ bhost ++ btail).data =
      bsch.data ++ ':' :: '/' :: '/' :: (bhost.data ++ btail.data) := by
    show ((bsch.data ++ "://".data) ++ bhost.data) ++ btail.data = _
    simp [hsep, List.append_assoc]
  have hbne : (bsch ++ "://" ++ bhost ++ btail).data.isEmpty = false := by
    rw [hbdata]
    exact isEmpty_append_cons _ _ _
  have hrd := apiRef_data version
  have hrne : ("/api/" ++ version ++ "/").data.isEmpty = false := by
    rw [hrd]
    rfl
  have hbparse := pyUrlparse_shape "" bsch bhost btail.data hbs hbchar hbt
    hbfrag hbsemi
  rw [strMk_data] at hbparse
  -- parse of the /api/<version>/ reference
  have hrcolon : ("/api/" ++ version ++ "/").data.contains ':' = false := by
    rw [hrd]
    simp [List.contains_cons, contains_append, hvcM]
  have hrfrag : ("/api/" ++ version ++ "/").data.contains '#' = false := by
    rw [hrd]
    simp [List.contains_cons, contains_append, hvhM]
  have hrpf : isPrefixList "//".data ("/api/" ++ version ++ "/").data = false := by
    rw [hrd]
    simp [isPrefixList]
  have hrq : ("/api/" ++ version ++ "/").data.contains '?' = false := by
    rw [hrd]
    simp [List.contains_cons, contains_append, hvqM]
  have hrtw : ("/api/" ++ version ++ "/").data.takeWhile (fun c => c ≠ '?') =
      ("/api/" ++ version ++ "/").data :=
    takeWhile_all (fun x hx => by
      simp [(contains_false_iff _ '?').mp hrq x hx])
  have hrsemi : (("/api/" ++ version ++ "/").data.takeWhile
      (fun c => c ≠ '?')).contains ';' = false := by
    rw [hrtw, hrd]
    simp [List.contains_cons, contains_append, hvsM]
  have hrparse := pyUrlparse_rel bsch ("/api/" ++ version ++ "/")
    hrcolon hrfrag hrpf hrsemi
  rw [hrtw, strMk_data, afterFirst_not_contains '?' _ hrq] at hrparse
  -- the split of the reference path
  have hsplit : splitOnChar '/'
      ('/' :: ('a' :: 'p' :: 'i' :: ('/' :: (version.data ++ '/' :: [])))) =
      [[], ['a', 'p', 'i'], version.data, []] := by
    rw [show ('/' :: ('a' :: 'p' :: 'i' :: ('/' :: (version.data ++ '/' :: [])))
        : List Char) =
      [] ++ '/' :: (['a', 'p', 'i'] ++ '/' :: (version.data ++ '/' :: []))
      from rfl]
    rw [splitOnChar_sep '/' [] _ (by intro x hx; cases hx)]
    rw [splitOnChar_sep '/' ['a', 'p', 'i'] _
      (by intro x hx; fin_cases hx <;> decide)]
    rw [splitOnChar_sep '/' version.data _ hvall]
    rfl
  have hjoin : joinSlash [[], ['a', 'p', 'i'], version.data, []] =
      '/' :: ('a' :: 'p' :: 'i' :: ('/' :: (version.data ++ '/' :: []))) := by
    rw [joinSlash_cons_cons, joinSlash_cons_cons, joinSlash_cons_cons]
    rfl
  have hnodots : ∀ x ∈ [([] : List Char), ['a', 'p', 'i'], version.data, []],
      x ≠ ['.'] ∧ x ≠ ['.', '.'] := by
    intro x hx
    simp only [List.mem_cons, List.not_mem_nil, or_false] at hx
    rcases hx with h | h | h | h
    · subst h; exact ⟨by decide, by decide⟩
    · subst h; exact ⟨by decide, by decide⟩
    · subst h; exact ⟨hvd1, hvd2⟩
    · subst h; exact ⟨by decide, by decide⟩
  have husesrelM : bsch ∈ uses_relative := by simpa using husesrel
  have hlast : ([[], ['a', 'p', 'i'], version.data, []] :
      List (List Char)).getLast? = some [] := rfl
  have hresolved : (if ([[], ['a', 'p', 'i'], version.data, []] :
        List (List Char)).getLast? = some ['.'] ∨
        ([[], ['a', 'p', 'i'], version.data, []] :
          List (List Char)).getLast? = some ['.', '.'] then
      resolveSegs [[], ['a', 'p', 'i'], version.data, []] ++ [[]]
    else resolveSegs [[], ['a', 'p', 'i'], version.data, []]) =
      [[], ['a', 'p', 'i'], version.data, []] := by
    rw [if_neg (by rw [hlast]; simp)]
    exact resolveSegs_no_dots _ hnodots
  have hed : (("" : String)).data.isEmpty = true := rfl
  have hapi : ("/api/" : String).data = ['/', 'a', 'p', 'i', '/'] := rfl
  have hslash : ("/" : String).data = ['/'] := rfl
  -- now run the join
  rw [apiUrlOf]
  rw [pyUrljoin]
  simp only [hbne, hrne, Bool.false_eq_true, if_false, hbparse, hrparse]
  simp only [bne_self_eq_false, husesrel, Bool.not_true, Bool.or_false,
    Bool.false_eq_true, if_false]
  simp only [List.isEmpty_nil, Bool.not_true, Bool.and_false,
    Bool.false_eq_true, if_false]
  simp only [husesnet, eq_self_iff_true, if_true]
  simp only [Bool.false_and, Bool.false_eq_true, if_false]
  simp only [hrd, List.head?_cons, eq_self_iff_true, if_true]
  simp only [hsplit, hresolved, hjoin, List.isEmpty_cons, Bool.false_eq_true,
    if_false]
  rw [pyUrlunparse]
  rw [if_pos hed]
  rw [pyUrlunsplit_noq bsch bhost (String.mk []) ""
    ('/' :: ('a' :: 'p' :: 'i' :: ('/' :: (version.data ++ '/' :: []))))
    hbhost hbschne (Or.inl rfl) rfl rfl]
  apply strExt
  simp [strData_append, hsep, hapi, hslash, List.append_assoc]

theorem dropWhile_append_stop {p : Char → Bool} {l : List Char} (x : Char)
    (r : List Char) (hl : ∀ c ∈ l, p c = true) (hx : p x = false) :
    List.dropWhile p (l ++ x :: r) = x :: r := by
  induction l with
  | nil => simp [List.dropWhile, hx]
  | cons a t ih =>
    have ha : p a = true := hl a (by simp)
    simp only [List.cons_append, List.dropWhile, ha]
    exact ih (fun c hc => hl c (by simp [hc]))

theorem getLast?_mem {α : Type} (l : List α) (a : α) (h : l.getLast? = some a) :
    a ∈ l := by
  induction l with
  | nil => simp [List.getLast?] at h
  | cons b t ih =>
    cases t with
    | nil =>
      simp only [List.getLast?_singleton, Option.some.injEq] at h
      simp [h]
    | cons c t2 =>
      rw [List.getLast?_cons_cons] at h
      exact List.mem_cons_of_mem b (ih h)

theorem noauth_of_head (path : String)
    (hne : (path.data.takeWhile (fun c => c ≠ '?')).isEmpty = false)
    (hhead : ¬(path.data.takeWhile (fun c => c ≠ '?')).head? = some '/') :
    isPrefixList "//".data path.data = false := by
  obtain ⟨c, r, hpd⟩ : ∃ c r, path.data = c :: r := by
    cases hp : path.data with
    | nil =>
      rw [hp] at hne
      simp [List.takeWhile] at hne
    | cons c r => exact ⟨c, r, rfl⟩
  have hcq : c ≠ '?' := by
    intro he
    rw [hpd, he] at hne
    simp [List.takeWhile] at hne
  have hcs : c ≠ '/' := by
    intro he
    rw [hpd, he] at hhead
    simp [List.takeWhile] at hhead
  rw [hpd]
  show (('/' == c) && isPrefixList ['/'] r) = false
  simp [Ne.symm hcs]

theorem pyUrljoin_abs (base sch host : String) (tail : List Char)
    (hbase : base.data.isEmpty = false)
    (hs : sch = "http" ∨ sch = "https")
    (hhost : host.data.isEmpty = false)
    (hchar : host.data.all hostChar = true)
    (ht : tail.head? = none ∨ tail.head? = some '/')
    (hfrag : tail.contains '#' = false)
    (hsemi : tail.contains ';' = false)
    (hqok : queryTailOk tail = true) :
    pyUrljoin base (sch ++ "://" ++ host ++ String.mk tail) =
      sch ++ "://" ++ host ++ String.mk tail := by
  have hsep : ("://" : String).data = [':', '/', '/'] := rfl
  have hschne : sch.data.isEmpty = false := by
    rcases hs with h | h <;> subst h <;> rfl
  have hdata : (sch ++ "://" ++ host ++ String.mk tail).data =
      sch.data ++ ':' :: '/' :: '/' :: (host.data ++ tail) := by
    show ((sch.data ++ "://".data) ++ host.data) ++ tail = _
    simp [hsep, List.append_assoc]
  have hune : (sch ++ "://" ++ host ++ String.mk tail).data.isEmpty = false := by
    rw [hdata]
    exact isEmpty_append_cons _ _ _
  have hsemi2 : (((tail.takeWhile (fun c => c ≠ '?')).reverse.takeWhile
      (fun c => c ≠ '/')).reverse).contains ';' = false := by
    rw [contains_false_iff]
    intro x hx
    have hx2 : x ∈ (tail.takeWhile (fun c => decide (c ≠ '?'))).reverse :=
      (List.takeWhile_sublist _).subset (List.mem_reverse.mp hx)
    have hx3 : x ∈ tail :=
      (List.takeWhile_sublist _).subset (List.mem_reverse.mp hx2)
    exact (contains_false_iff tail ';').mp hsemi x hx3
  have hrparse := pyUrlparse_shape (pyUrlparse "" base).scheme sch host tail hs
    hchar ht hfrag hsemi2
  rw [pyUrljoin]
  rw [if_neg (by rw [hbase]; exact Bool.false_ne_true)]
  rw [if_neg (by rw [hune]; exact Bool.false_ne_true)]
  simp only [hrparse]
  by_cases hbsch : (pyUrlparse "" base).scheme = sch
  · have husesrel2 : uses_relative.contains sch = true := by
      rcases hs with h | h <;> subst h <;> decide
    have husesrelM : sch ∈ uses_relative := by simpa using husesrel2
    have husesnet2 : uses_netloc.contains sch = true := by
      rcases hs with h | h <;> subst h <;> decide
    rw [if_neg (by
      rw [hbsch]
      simp [husesrelM])]
    rw [if_pos (by
      rw [husesnet2, hhost]
      simp)]
    rw [pyUrlunparse]
    rw [if_pos (show (("" : String)).data.isEmpty = true from rfl)]
    by_cases hctq : tail.contains '?' = true
    · obtain ⟨l1, l2, hdec, hl1⟩ := contains_decomp '?' tail hctq
      subst hdec
      have hl1x : ∀ x ∈ l1, x ≠ '?' := (contains_false_iff l1 '?').mp hl1
      have htw : (l1 ++ '?' :: l2).takeWhile (fun c => c ≠ '?') = l1 :=
        takeWhile_append_stop '?' l2 (fun x hx => by simp [hl1x x hx]) (by decide)
      have haf : afterFirst '?' (l1 ++ '?' :: l2) = l2 :=
        afterFirst_found '?' l1 l2 hl1x
      have hl2ne : (l2 : List Char).isEmpty = false := by
        have hdw : (l1 ++ '?' :: l2).dropWhile (fun c => c ≠ '?') = '?' :: l2 :=
          dropWhile_append_stop '?' l2 (fun x hx => by simp [hl1x x hx])
            (by decide)
        rw [queryTailOk, hdw] at hqok
        cases l2 with
        | nil => simp at hqok
        | cons a t => rfl
      have hl1h : (l1 : List Char).head? = some '/' ∨ l1 = [] := by
        cases l1 with
        | nil => exact Or.inr rfl
        | cons a t =>
          rcases ht with h | h
          · simp at h
          · simp only [List.cons_append, List.head?, Option.some.injEq] at h
            exact Or.inl (by rw [h]; rfl)
      rw [htw, haf]
      rw [pyUrlunsplit_q sch host (String.mk l2) "" l1 hhost hschne hl1h
        hl2ne rfl]
      apply strExt
      simp [strData_append, hsep, List.append_assoc]
    · have hqf : tail.contains '?' = false := by
        cases hc : tail.contains '?' with
        | false => rfl
        | true => exact absurd hc hctq
      have htw : tail.takeWhile (fun c => c ≠ '?') = tail :=
        takeWhile_all (fun x hx => by
          simp [(contains_false_iff tail '?').mp hqf x hx])
      have haf : afterFirst '?' tail = [] :=
        afterFirst_not_contains '?' tail hqf
      have hth : tail.head? = some '/' ∨ tail = [] := by
        rcases ht with h | h
        · exact Or.inr (by cases tail with
            | nil => rfl
            | cons a t => simp at h)
        · exact Or.inl h
      rw [htw, haf]
      rw [pyUrlunsplit_noq sch host (String.mk []) "" tail hhost hschne hth
        rfl rfl]
  · rw [if_pos (by
      have : (sch != (pyUrlparse "" base).scheme) = true :=
        bne_iff_ne.mpr (fun he => hbsch he.symm)
      simp [this])]

theorem apiRef_contains_false (version : String) (c : Char)
    (hvm : c ∉ version.data) (h1 : ¬c = '/') (h2 : ¬c = 'a') (h3 : ¬c = 'p')
    (h4 : ¬c = 'i') :
    ("/api/" ++ version ++ "/").data.contains c = false := by
  rw [apiRef_data, contains_false_iff]
  intro x hx
  simp only [List.mem_cons, List.mem_append, List.not_mem_nil, or_false] at hx
  intro he
  subst he
  rcases hx with h | h | h | h | h | h | h
  · exact h1 h
  · exact h2 h
  · exact h3 h
  · exact h4 h
  · exact h1 h
  · exact hvm h
  · exact h1 h

theorem apiRef_split (version : String) (hvall : ∀ x ∈ version.data, x ≠ '/') :
    splitOnChar '/'
      ('/' :: ('a' :: 'p' :: 'i' :: ('/' :: (version.data ++ '/' :: [])))) =
      [[], ['a', 'p', 'i'], version.data, []] := by
  rw [show ('/' :: ('a' :: 'p' :: 'i' :: ('/' :: (version.data ++ '/' :: [])))
      : List Char) =
    [] ++ '/' :: (['a', 'p', 'i'] ++ '/' :: (version.data ++ '/' :: []))
    from rfl]
  rw [splitOnChar_sep '/' [] _ (by intro x hx; cases hx)]
  rw [splitOnChar_sep '/' ['a', 'p', 'i'] _
    (by intro x hx; fin_cases hx <;> decide)]
  rw [splitOnChar_sep '/' version.data _ hvall]
  rfl

theorem apiBase_parse (bsch bhost version : String)
    (hbs : bsch = "http" ∨ bsch = "https")
    (hbchar : bhost.data.all hostChar = true)
    (hv : versionOk version = true) :
    pyUrlparse "" (bsch ++ "://" ++ bhost ++ "/api/" ++ version ++ "/") =
      ⟨bsch, bhost, "/api/" ++ version ++ "/", "", "", ""⟩ := by
  simp only [versionOk, Bool.and_eq_true, Bool.not_eq_true', beq_eq_false_iff_ne,
    ne_eq] at hv
  obtain ⟨⟨⟨⟨⟨⟨⟨hvne, hvsl⟩, hvq⟩, hvh⟩, hvc⟩, hvsemi⟩, hvd1⟩, hvd2⟩ := hv
  have hvqM : '?' ∉ version.data := by simpa using hvq
  have hvhM : '#' ∉ version.data := by simpa using hvh
  have hrd := apiRef_data version
  have hassoc : bsch ++ "://" ++ bhost ++ "/api/" ++ version ++ "/" =
      bsch ++ "://" ++ bhost ++ ("/api/" ++ version ++ "/") := by
    apply strExt
    simp [strData_append, List.append_assoc]
  have hrfrag : ("/api/" ++ version ++ "/").data.contains '#' = false :=
    apiRef_contains_false version '#' hvhM (by decide) (by decide) (by decide)
      (by decide)
  have hrq : ("/api/" ++ version ++ "/").data.contains '?' = false :=
    apiRef_contains_false version '?' hvqM (by decide) (by decide) (by decide)
      (by decide)
  have hrtw : ("/api/" ++ version ++ "/").data.takeWhile (fun c => c ≠ '?') =
      ("/api/" ++ version ++ "/").data :=
    takeWhile_all (fun x hx => by
      simp [(contains_false_iff _ '?').mp hrq x hx])
  have hsemi : ((((("/api/" ++ version ++ "/").data.takeWhile
      (fun c => c ≠ '?'))).reverse.takeWhile
      (fun c => c ≠ '/')).reverse).contains ';' = false := by
    rw [hrtw]
    have hrev : ("/api/" ++ version ++ "/").data.reverse =
        '/' :: ('/' :: 'a' :: 'p' :: 'i' :: '/' :: version.data).reverse := by
      rw [hrd]
      rw [show ('/' :: ('a' :: 'p' :: 'i' :: ('/' :: (version.data ++ '/' :: [])))
          : List Char) =
        ('/' :: 'a' :: 'p' :: 'i' :: '/' :: version.data) ++ ['/'] by simp]
      simp
    rw [hrev]
    rfl
  have hshape := pyUrlparse_shape "" bsch bhost ("/api/" ++ version ++ "/").data
    hbs hbchar (Or.inr (by rw [hrd]; rfl)) hrfrag hsemi
  rw [strMk_data] at hshape
  rw [hassoc, hshape, hrtw, strMk_data, afterFirst_not_contains '?' _ hrq]

theorem pyUrljoin_rel (bsch bhost version path : String)
    (hbs : bsch = "http" ∨ bsch = "https")
    (hbhost : bhost.data.isEmpty = false)
    (hbchar : bhost.data.all hostChar = true)
    (hv : versionOk version = true)
    (hrel : relPathOk path = true) :
    pyUrljoin (bsch ++ "://" ++ bhost ++ "/api/" ++ version ++ "/") path =
      bsch ++ "://" ++ bhost ++ "/api/" ++ version ++ "/" ++ path := by
  have hsep : ("://" : String).data = [':', '/', '/'] := rfl
  have hapi : ("/api/" : String).data = ['/', 'a', 'p', 'i', '/'] := rfl
  have hslash : ("/" : String).data = ['/'] := rfl
  have hrd := apiRef_data version
  have hbase_parse := apiBase_parse bsch bhost version hbs hbchar hv
  simp only [versionOk, Bool.and_eq_true, Bool.not_eq_true',
    beq_eq_false_iff_ne, ne_eq] at hv
  obtain ⟨⟨⟨⟨⟨⟨⟨hvne, hvsl⟩, hvq⟩, hvh⟩, hvc⟩, hvsemi⟩, hvd1⟩, hvd2⟩ := hv
  have hvall : ∀ x ∈ version.data, x ≠ '/' :=
    (contains_false_iff version.data '/').mp hvsl
  simp only [relPathOk, Bool.and_eq_true, Bool.not_eq_true',
    beq_eq_false_iff_ne, ne_eq] at hrel
  obtain ⟨⟨⟨⟨⟨⟨⟨hp0ne, hp0h⟩, hpc⟩, hph⟩, hpsemi⟩, hsegne⟩, hsegdot⟩, hqok⟩ := hrel
  have hnoauth := noauth_of_head path hp0ne hp0h
  have hrparse := pyUrlparse_rel bsch path hpc hph hnoauth hpsemi
  have hbschne : bsch.data.isEmpty = false := by
    rcases hbs with h | h <;> subst h <;> rfl
  have husesrelB : uses_relative.contains bsch = true := by
    rcases hbs with h | h <;> subst h <;> decide
  have husesrelM : bsch ∈ uses_relative := by simpa using husesrelB
  have husesnetB : uses_netloc.contains bsch = true := by
    rcases hbs with h | h <;> subst h <;> decide
  have hbdata : (bsch ++ "://" ++ bhost ++ "/api/" ++ version ++ "/").data =
      bsch.data ++ ':' :: '/' :: '/' ::
        (bhost.data ++ ("/api/" ++ version ++ "/").data) := by
    show ((((bsch.data ++ "://".data) ++ bhost.data) ++ "/api/".data) ++
      version.data) ++ "/".data = _
    simp [hsep, List.append_assoc]
  have hbne2 : (bsch ++ "://" ++ bhost ++ "/api/" ++ version ++
      "/").data.isEmpty = false := by
    rw [hbdata]
    exact isEmpty_append_cons _ _ _
  have hpne : path.data.isEmpty = false := by
    cases hpd : path.data with
    | nil =>
      rw [hpd] at hp0ne
      simp [List.takeWhile] at hp0ne
    | cons c r => rfl
  rcases hsegs : splitOnChar '/'
      (path.data.takeWhile (fun c => c ≠ '?')) with _ | ⟨q1, qs⟩
  · exact absurd hsegs (splitOnChar_ne_nil _ _)
  rw [hsegs] at hsegne hsegdot
  have hqsall : ∀ x ∈ (q1 :: qs).dropLast, x.isEmpty = false := by
    intro x hx
    have h2 := List.all_eq_true.mp hsegne x hx
    simpa using h2
  have hnodot : ∀ x ∈ q1 :: qs, x ≠ ['.'] ∧ x ≠ ['.', '.'] := by
    intro x hx
    have h2 := List.all_eq_true.mp hsegdot x hx
    simp only [Bool.and_eq_true, Bool.not_eq_true', beq_eq_false_iff_ne,
      ne_eq] at h2
    exact h2
  -- run the join
  rw [pyUrljoin]
  rw [if_neg (by rw [hbne2]; exact Bool.false_ne_true)]
  rw [if_neg (by rw [hpne]; exact Bool.false_ne_true)]
  simp only [hbase_parse, hrparse]
  rw [if_neg (by simp [husesrelM])]
  rw [if_neg (by simp)]
  simp only [husesnetB, eq_self_iff_true, if_true]
  rw [if_neg (by
    simp only [hp0ne, Bool.false_and]
    exact Bool.false_ne_true)]
  rw [if_neg (show ¬((String.mk (path.data.takeWhile
      (fun c => c ≠ '?'))).data.head? = some '/') from hp0h)]
  rw [hrd, apiRef_split version hvall]
  rw [show delLastIfNonEmpty [[], ['a', 'p', 'i'], version.data, []] =
    [[], ['a', 'p', 'i'], version.data, []] from rfl]
  rw [hsegs]
  rw [show ([[], ['a', 'p', 'i'], version.data, []] ++ q1 :: qs :
      List (List Char)) =
    [] :: ['a', 'p', 'i'] :: version.data :: [] :: q1 :: qs from rfl]
  rw [show filterMiddle
      ([] :: ['a', 'p', 'i'] :: version.data :: [] :: q1 :: qs) =
    [] :: filterInner (['a', 'p', 'i'] :: version.data :: [] :: q1 :: qs)
    from rfl]
  rw [show filterInner (['a', 'p', 'i'] :: version.data :: [] :: q1 :: qs) =
    ['a', 'p', 'i'] :: filterInner (version.data :: [] :: q1 :: qs) from by
    show (if (['a', 'p', 'i'] : List Char).isEmpty = true then
        filterInner (version.data :: [] :: q1 :: qs)
      else ['a', 'p', 'i'] :: filterInner (version.data :: [] :: q1 :: qs)) = _
    rw [if_neg (by decide)]]
  rw [show filterInner (version.data :: [] :: q1 :: qs) =
    version.data :: filterInner ([] :: q1 :: qs) from by
    show (if version.data.isEmpty = true then filterInner ([] :: q1 :: qs)
      else version.data :: filterInner ([] :: q1 :: qs)) = _
    rw [if_neg (by rw [hvne]; exact Bool.false_ne_true)]]
  rw [show filterInner (([] : List Char) :: q1 :: qs) = filterInner (q1 :: qs)
    from by
    show (if ([] : List Char).isEmpty = true then filterInner (q1 :: qs)
      else [] :: filterInner (q1 :: qs)) = _
    rw [if_pos (show ([] : List Char).isEmpty = true from rfl)]]
  rw [filterInner_all (q1 :: qs) hqsall]
  have hgl : (([] : List Char) :: ['a', 'p', 'i'] :: version.data ::
      q1 :: qs).getLast? = (q1 :: qs).getLast? := by
    rw [List.getLast?_cons_cons, List.getLast?_cons_cons,
      List.getLast?_cons_cons]
  rw [if_neg (show ¬((([] : List Char) :: ['a', 'p', 'i'] :: version.data ::
      q1 :: qs).getLast? = some ['.'] ∨
      (([] : List Char) :: ['a', 'p', 'i'] :: version.data ::
      q1 :: qs).getLast? = some ['.', '.']) from by
    rw [hgl]
    rintro (h | h)
    · exact (hnodot _ (getLast?_mem _ _ h)).1 rfl
    · exact (hnodot _ (getLast?_mem _ _ h)).2 rfl)]
  rw [resolveSegs_no_dots _ (by
    intro x hx
    rcases List.mem_cons.mp hx with h | hx2
    · subst h; exact ⟨by decide, by decide⟩
    rcases List.mem_cons.mp hx2 with h | hx3
    · subst h; exact ⟨by decide, by decide⟩
    rcases List.mem_cons.mp hx3 with h | hx4
    · subst h; exact ⟨hvd1, hvd2⟩
    · exact hnodot x hx4)]
  rw [joinSlash_cons_cons, joinSlash_cons_cons, joinSlash_cons_cons]
  rw [show joinSlash (q1 :: qs) = path.data.takeWhile (fun c => c ≠ '?') from by
    rw [← hsegs]
    exact joinSlash_splitOnChar _]
  rw [show (([] : List Char) ++ '/' :: (['a', 'p', 'i'] ++ '/' ::
      (version.data ++ '/' :: (path.data.takeWhile (fun c => c ≠ '?'))))) =
    '/' :: 'a' :: 'p' :: 'i' :: '/' ::
      (version.data ++ '/' :: (path.data.takeWhile (fun c => c ≠ '?')))
    from by simp]
  rw [if_neg (show ¬(('/' :: 'a' :: 'p' :: 'i' :: '/' ::
      (version.data ++ '/' :: (path.data.takeWhile (fun c => c ≠ '?')))
      : List Char).isEmpty = true) from by simp)]
  rw [pyUrlunparse]
  rw [if_pos (show (("" : String)).data.isEmpty = true from rfl)]
  by_cases hctq : path.data.contains '?' = true
  · obtain ⟨l1, l2, hdec, hl1⟩ := contains_decomp '?' path.data hctq
    have hl1x : ∀ x ∈ l1, x ≠ '?' := (contains_false_iff l1 '?').mp hl1
    have htw : path.data.takeWhile (fun c => c ≠ '?') = l1 := by
      rw [hdec]
      exact takeWhile_append_stop '?' l2 (fun x hx => by simp [hl1x x hx])
        (by decide)
    have haf : afterFirst '?' path.data = l2 := by
      rw [hdec]
      exact afterFirst_found '?' l1 l2 hl1x
    have hl2ne : (l2 : List Char).isEmpty = false := by
      have hdw : path.data.dropWhile (fun c => c ≠ '?') = '?' :: l2 := by
        rw [hdec]
        exact dropWhile_append_stop '?' l2 (fun x hx => by simp [hl1x x hx])
          (by decide)
      rw [queryTailOk, hdw] at hqok
      cases l2 with
      | nil => simp at hqok
      | cons a t => rfl
    rw [htw, haf]
    rw [pyUrlunsplit_q bsch bhost (String.mk l2) ""
      ('/' :: 'a' :: 'p' :: 'i' :: '/' :: (version.data ++ '/' :: l1))
      hbhost hbschne (Or.inl rfl) hl2ne rfl]
    apply strExt
    simp [strData_append, hsep, hapi, hslash, hdec, List.append_assoc]
  · have hqf : path.data.contains '?' = false := by
      cases hc : path.data.contains '?' with
      | false => rfl
      | true => exact absurd hc hctq
    have htw : path.data.takeWhile (fun c => c ≠ '?') = path.data :=
      takeWhile_all (fun x hx => by
        simp [(contains_false_iff path.data '?').mp hqf x hx])
    have haf : afterFirst '?' path.data = [] :=
      afterFirst_not_contains '?' path.data hqf
    rw [htw, haf]
    rw [pyUrlunsplit_noq bsch bhost (String.mk []) ""
      ('/' :: 'a' :: 'p' :: 'i' :: '/' :: (version.data ++ '/' :: path.data))
      hbhost hbschne (Or.inl rfl) rfl rfl]
    apply strExt
    simp [strData_append, hsep, hapi, hslash, List.append_assoc]

/-- C9: with a GitLabAPI configured from a base URL scheme://host<tail>
(http or https, non-empty plain host, tail absent or starting with a slash
and free of fragments and parameters) and an in-scope API version, the
configured api_url is scheme://host/api/<version>/; then (a) a path that is
itself an absolute http(s) URL is returned by format_url unchanged (with no
params to merge), (b) for every path and every params, format_url gives the
same result whether or not the path carries a leading slash, and (c) an
in-scope relative path resolves to the api_url with the path appended. -/
theorem claim9_format_url (bsch bhost btail version : String)
    (hbs : bsch = "http" ∨ bsch = "https")
    (hbhost : bhost.data.isEmpty = false)
    (hbchar : bhost.data.all hostChar = true)
    (hbt : btail.data.head? = none ∨ btail.data.head? = some '/')
    (hbfrag : btail.data.contains '#' = false)
    (hbsemi : (((btail.data.takeWhile (fun c => c ≠ '?')).reverse.takeWhile
        (fun c => c ≠ '/')).reverse).contains ';' = false)
    (hv : versionOk version = true) :
    apiUrlOf (bsch ++ "://" ++ bhost ++ btail) version =
      bsch ++ "://" ++ bhost ++ "/api/" ++ version ++ "/" ∧
    (∀ (sch host : String) (tail : List Char),
      (sch = "http" ∨ sch = "https") →
      host.data.isEmpty = false →
      host.data.all hostChar = true →
      (tail.head? = none ∨ tail.head? = some '/') →
      tail.contains '#' = false →
      tail.contains ';' = false →
      queryTailOk tail = true →
      format_url (apiUrlOf (bsch ++ "://" ++ bhost ++ btail) version)
          (sch ++ "://" ++ host ++ String.mk tail) [] =
        sch ++ "://" ++ host ++ String.mk tail) ∧
    (∀ (path : String) (params : List (String × String)),
      format_url (apiUrlOf (bsch ++ "://" ++ bhost ++ btail) version)
          ("/" ++ path) params =
        format_url (apiUrlOf (bsch ++ "://" ++ bhost ++ btail) version)
          path params) ∧
    (∀ path : String, relPathOk path = true →
      format_url (apiUrlOf (bsch ++ "://" ++ bhost ++ btail) version)
          path [] =
        bsch ++ "://" ++ bhost ++ "/api/" ++ version ++ "/" ++ path) := by
  have hA := apiUrlOf_shape bsch bhost btail version hbs hbhost hbchar hbt
    hbfrag hbsemi hv
  have hsep : ("://" : String).data = [':', '/', '/'] := rfl
  have hbdata : (bsch ++ "://" ++ bhost ++ "/api/" ++ version ++ "/").data =
      bsch.data ++ ':' :: '/' :: '/' ::
        (bhost.data ++ ("/api/" ++ version ++ "/").data) := by
    show ((((bsch.data ++ "://".data) ++ bhost.data) ++ "/api/".data) ++
      version.data) ++ "/".data = _
    simp [hsep, List.append_assoc]
  have hAne : (bsch ++ "://" ++ bhost ++ "/api/" ++ version ++
      "/").data.isEmpty = false := by
    rw [hbdata]
    exact isEmpty_append_cons _ _ _
  refine ⟨hA, ?_, ?_, ?_⟩
  · intro sch host tail hs hhost hchar ht hfrag hsemi hqok
    rw [hA]
    have hlhead : (sch ++ "://" ++ host ++ String.mk tail).data.head? =
        some 'h' := by
      rcases hs with h | h <;> subst h <;> rfl
    have hls : lstripSlash (sch ++ "://" ++ host ++ String.mk tail) =
        sch ++ "://" ++ host ++ String.mk tail :=
      lstripSlash_of_head_ne _ (by rw [hlhead]; intro h2; cases h2)
    rw [show format_url (bsch ++ "://" ++ bhost ++ "/api/" ++ version ++ "/")
        (sch ++ "://" ++ host ++ String.mk tail) [] =
      pyUrljoin (bsch ++ "://" ++ bhost ++ "/api/" ++ version ++ "/")
        (lstripSlash (sch ++ "://" ++ host ++ String.mk tail)) from rfl]
    rw [hls]
    exact pyUrljoin_abs _ sch host tail hAne hs hhost hchar ht hfrag hsemi hqok
  · intro path params
    simp only [format_url, lstripSlash_slash_append]
  · intro path hrel
    rw [hA]
    have hcopy := hrel
    simp only [relPathOk, Bool.and_eq_true, Bool.not_eq_true',
      beq_eq_false_iff_ne, ne_eq] at hcopy
    obtain ⟨⟨⟨⟨⟨⟨⟨hp0ne, hp0h⟩, hx3⟩, hx4⟩, hx5⟩, hx6⟩, hx7⟩, hx8⟩ := hcopy
    have hhd : path.data.head? ≠ some '/' := by
      cases hpd : path.data with
      | nil => simp
      | cons c r =>
        rw [hpd] at hp0ne hp0h
        by_cases hc : c = '?'
        · subst hc
          simp [List.takeWhile_cons] at hp0ne
        · simp only [List.takeWhile_cons] at hp0h
          rw [if_pos (show decide (c ≠ '?') = true from by
            simp [hc])] at hp0h
          simp only [List.head?_cons] at hp0h
          simp only [List.head?_cons]
          exact hp0h
    have hls : lstripSlash path = path := lstripSlash_of_head_ne path hhd
    rw [show format_url (bsch ++ "://" ++ bhost ++ "/api/" ++ version ++ "/")
        path [] =
      pyUrljoin (bsch ++ "://" ++ bhost ++ "/api/" ++ version ++ "/")
        (lstripSlash path) from rfl]
    rw [hls]
    exact pyUrljoin_rel bsch bhost version path hbs hbhost hbchar hv hrel

theorem claim9_witness :
    apiUrlOf ("https" ++ "://" ++ "gitlab.com" ++ "") "v4" =
      "https" ++ "://" ++ "gitlab.com" ++ "/api/" ++ "v4" ++ "/" ∧
    format_url (apiUrlOf ("https" ++ "://" ++ "gitlab.com" ++ "") "v4")
        ("https" ++ "://" ++ "gitlab.example.com" ++
          String.mk ['/', 'a', 'p', 'i', '/', 'v', '4', '/', 'x']) [] =
      "https" ++ "://" ++ "gitlab.example.com" ++
        String.mk ['/', 'a', 'p', 'i', '/', 'v', '4', '/', 'x'] ∧
    format_url (apiUrlOf ("https" ++ "://" ++ "gitlab.com" ++ "") "v4")
        ("/" ++ "projects") [("per_page", "2")] =
      format_url (apiUrlOf ("https" ++ "://" ++ "gitlab.com" ++ "") "v4")
        "projects" [("per_page", "2")] ∧
    format_url (apiUrlOf ("https" ++ "://" ++ "gitlab.com" ++ "") "v4")
        "projects" [] =
      "https" ++ "://" ++ "gitlab.com" ++ "/api/" ++ "v4" ++ "/" ++
        "projects" := by
  obtain ⟨h0, ha, hb, hc⟩ := claim9_format_url "https" "gitlab.com" "" "v4"
    (Or.inr rfl) (by decide) (by decide) (Or.inl (by decide)) (by decide)
    (by decide) (by decide)
  exact ⟨h0,
    ha "https" "gitlab.example.com" ['/', 'a', 'p', 'i', '/', 'v', '4', '/', 'x']
      (Or.inr rfl) (by decide) (by decide) (Or.inr (by decide)) (by decide)
      (by decide) (by decide),
    hb "projects" [("per_page", "2")],
    hc "projects" (by decide)⟩

end Gidgetlab
